import Mathlib

/-!
# pusher-go: a verification development

A shallow embedding of `pusher.go` (the Pusher websocket client) together with the
parts of the Go standard library its behaviour depends on (`unicode/utf8`,
`encoding/json`, `net/url`, channels, `log.Fatal`), and theorems about the
outbound requests, the inbound dispatcher, the handler registry, the writer and
the liveness monitor.

Conventions
* A Go `string` / `[]byte` is a list of byte values (`Nat`, each below 256).
* Durations and instants are integers counting nanoseconds.
* Goroutines are modelled by explicit state passing: a channel is a FIFO, an
  environment oracle supplies what the transport and the clock answer.
-/

set_option linter.dupNamespace false

namespace Pusher

/-! ## Go strings -/

/-- A Go string: its bytes, in order. -/
abbrev GoString := List Nat

/-- The bytes of an ASCII string literal of the source. -/
def ascii (s : String) : GoString := s.toList.map Char.toNat

/-! ## unicode/utf8 -/

/-- The constant `utf8.RuneError` (U+FFFD). -/
def RuneError : Nat := 0xFFFD

/-- The constant `utf8.MaxRune`. -/
def MaxRune : Nat := 0x10FFFF

/-- The function `utf8.DecodeRune`: the first rune of `s` and its width in bytes;
`(RuneError, 1)` on an invalid encoding, `(RuneError, 0)` on the empty input.
The masks and shifts of the source are written arithmetically:
`s0 & 0x1F` is `s0 % 32`, `x << 6 | y` with `y < 64` is `x * 64 + y`. The `first`
table and `acceptRanges` are written as comparisons on the lead byte. -/
def DecodeRune (s : List Nat) : Nat × Nat :=
  match s with
  | [] => (RuneError, 0)
  | s0 :: t =>
    if s0 < 0x80 then (s0, 1)
    else if s0 < 0xC2 ∨ 0xF4 < s0 then (RuneError, 1)
    else
      let sz := if s0 < 0xE0 then 2 else if s0 < 0xF0 then 3 else 4
      let lo := if s0 = 0xE0 then 0xA0 else if s0 = 0xF0 then 0x90 else 0x80
      let hi := if s0 = 0xED then 0x9F else if s0 = 0xF4 then 0x8F else 0xBF
      match t with
      | [] => (RuneError, 1)
      | s1 :: t1 =>
        if s1 < lo ∨ hi < s1 then (RuneError, 1)
        else if sz ≤ 2 then ((s0 % 32) * 64 + s1 % 64, 2)
        else
          match t1 with
          | [] => (RuneError, 1)
          | s2 :: t2 =>
            if s2 < 0x80 ∨ 0xBF < s2 then (RuneError, 1)
            else if sz ≤ 3 then ((s0 % 16) * 4096 + (s1 % 64) * 64 + s2 % 64, 3)
            else
              match t2 with
              | [] => (RuneError, 1)
              | s3 :: _ =>
                if s3 < 0x80 ∨ 0xBF < s3 then (RuneError, 1)
                else ((s0 % 8) * 262144 + (s1 % 64) * 4096 + (s2 % 64) * 64 + s3 % 64, 4)

/-- The function `utf8.EncodeRune` / `utf8.AppendRune`: the UTF-8 bytes of a rune;
surrogates and values above `MaxRune` are encoded as `RuneError`. -/
def EncodeRune (r : Nat) : List Nat :=
  if r ≤ 0x7F then [r]
  else if r ≤ 0x7FF then [0xC0 + r / 64, 0x80 + r % 64]
  else if MaxRune < r ∨ (0xD800 ≤ r ∧ r ≤ 0xDFFF) then [0xEF, 0xBF, 0xBD]
  else if r ≤ 0xFFFF then [0xE0 + r / 4096, 0x80 + r / 64 % 64, 0x80 + r % 64]
  else [0xF0 + r / 262144, 0x80 + r / 4096 % 64, 0x80 + r / 64 % 64, 0x80 + r % 64]

/-- A Unicode scalar value: what `utf8.ValidRune` accepts. -/
def ValidRune (r : Nat) : Prop := r < 0xD800 ∨ (0xE000 ≤ r ∧ r ≤ MaxRune)

instance (r : Nat) : Decidable (ValidRune r) := by unfold ValidRune; exact inferInstance

/-- The UTF-8 text of a sequence of runes (Go: `string([]rune)`). -/
def utf8Text (rs : List Nat) : GoString := rs.flatMap EncodeRune

/-! ## encoding/json: encoder -/

/-- The table `hex`: the lower-case hexadecimal digit of a value below 16. -/
def hex (n : Nat) : Nat := if n < 10 then 0x30 + n else 0x57 + n

/-- The table `htmlSafeSet`: the ASCII bytes written without escaping when
`escapeHTML` is on, as it is for `json.Marshal`. -/
def htmlSafe (b : Nat) : Bool :=
  decide (0x20 ≤ b) && decide (b < 0x80) && b != 0x22 && b != 0x5C && b != 0x3C && b != 0x3E
    && b != 0x26

/-- The escape written by `appendString` for an ASCII byte outside `htmlSafeSet`. -/
def escapeByte (b : Nat) : List Nat :=
  if b = 0x5C ∨ b = 0x22 then [0x5C, b]
  else if b = 0x08 then [0x5C, 0x62]
  else if b = 0x0C then [0x5C, 0x66]
  else if b = 0x0A then [0x5C, 0x6E]
  else if b = 0x0D then [0x5C, 0x72]
  else if b = 0x09 then [0x5C, 0x74]
  else [0x5C, 0x75, 0x30, 0x30, hex (b / 16), hex (b % 16)]

/-- The loop of `appendString` (between the two quotes), one iteration per unit of
fuel: an ASCII byte is copied or escaped; an invalid UTF-8 byte becomes the escape of U+FFFD;
U+2028 and U+2029 are escaped; every other rune is copied. -/
def appendStringLoop : Nat → List Nat → List Nat
  | 0, _ => []
  | _ + 1, [] => []
  | fuel + 1, b :: rest =>
    if b < 0x80 then
      if htmlSafe b then b :: appendStringLoop fuel rest
      else escapeByte b ++ appendStringLoop fuel rest
    else
      let d := DecodeRune (b :: rest)
      if d.1 = RuneError ∧ d.2 = 1 then
        [0x5C, 0x75, 0x66, 0x66, 0x66, 0x64] ++ appendStringLoop fuel rest
      else if d.1 = 0x2028 ∨ d.1 = 0x2029 then
        [0x5C, 0x75, 0x32, 0x30, 0x32, hex (d.1 % 16)]
          ++ appendStringLoop fuel ((b :: rest).drop d.2)
      else (b :: rest).take d.2 ++ appendStringLoop fuel ((b :: rest).drop d.2)

/-- The function `appendString` of `encoding/json` with `escapeHTML = true`: the JSON
string literal for a Go string. Each iteration consumes at least one byte, so
`s.length` iterations finish the loop. -/
def appendString (s : GoString) : List Nat :=
  [0x22] ++ appendStringLoop s.length s ++ [0x22]

/-- Byte-wise lexicographic order, the order of `strings.Compare`. -/
def bytesLE : List Nat → List Nat → Bool
  | [], _ => true
  | _ :: _, [] => false
  | a :: s, b :: t => if a < b then true else if b < a then false else bytesLE s t

/-- Insertion of a map entry into a list of entries sorted by key. -/
def insertByKey {α : Type} (e : GoString × α) : List (GoString × α) → List (GoString × α)
  | [] => [e]
  | x :: xs => if bytesLE e.1 x.1 then e :: x :: xs else x :: insertByKey e xs

/-- The entries of a map in the order the encoder writes them: sorted by key. -/
def sortByKey {α : Type} (m : List (GoString × α)) : List (GoString × α) :=
  m.foldr insertByKey []

/-- The members of a JSON object, comma separated. -/
def joinMembers : List (List Nat) → List Nat
  | [] => []
  | [x] => x
  | x :: y :: rest => x ++ [0x2C] ++ joinMembers (y :: rest)

/-- The Go values that `Subscribe` and `Unsubscribe` hand to `json.Marshal` as values
of a map from string to interface: a string, or a `map[string]string` (given by its
entries, in the order of the map literal). -/
inductive GoValue where
  | str (s : GoString)
  | mapSS (m : List (GoString × GoString))

/-- The encoding of a `map[string]string`: keys sorted, each value a string literal. -/
def marshalMapSS (m : List (GoString × GoString)) : List Nat :=
  [0x7B] ++ joinMembers ((sortByKey m).map fun e => appendString e.1 ++ [0x3A] ++ appendString e.2)
    ++ [0x7D]

/-- The encoding of an interface value by its dynamic type. -/
def marshalValue : GoValue → List Nat
  | .str s => appendString s
  | .mapSS m => marshalMapSS m

/-- The function `json.Marshal` on a map from string to interface, given by the entries
of the map literal: the encoder writes the entries sorted by key. -/
def Marshal (m : List (GoString × GoValue)) : List Nat :=
  [0x7B] ++ joinMembers ((sortByKey m).map fun e => appendString e.1 ++ [0x3A] ++ marshalValue e.2)
    ++ [0x7D]

/-! ## encoding/json: decoder -/

/-- A decoded JSON value. A number keeps its literal text. -/
inductive JSON where
  | null
  | bool (b : Bool)
  | num (lit : List Nat)
  | str (s : GoString)
  | arr (xs : List JSON)
  | obj (members : List (GoString × JSON))

/-- The value of a hexadecimal digit, if it is one. -/
def hexVal (c : Nat) : Option Nat :=
  if 0x30 ≤ c ∧ c ≤ 0x39 then some (c - 0x30)
  else if 0x61 ≤ c ∧ c ≤ 0x66 then some (c - 0x61 + 10)
  else if 0x41 ≤ c ∧ c ≤ 0x46 then some (c - 0x41 + 10)
  else none

/-- The function `getu4`: the rune of a leading `\uXXXX` escape, if there is one. -/
def getu4 : List Nat → Option Nat
  | 0x5C :: 0x75 :: a :: b :: c :: d :: _ =>
    match hexVal a, hexVal b, hexVal c, hexVal d with
    | some x, some y, some z, some w => some (x * 4096 + y * 256 + z * 16 + w)
    | _, _, _, _ => none
  | _ => none

/-- The function `utf16.DecodeRune`: the rune of a surrogate pair, U+FFFD if the pair
is not valid. -/
def utf16DecodeRune (r1 r2 : Nat) : Nat :=
  if 0xD800 ≤ r1 ∧ r1 < 0xDC00 ∧ 0xDC00 ≤ r2 ∧ r2 < 0xE000 then
    (r1 - 0xD800) * 1024 + (r2 - 0xDC00) + 0x10000
  else RuneError

/-- The character of a one-letter escape (the letter after the backslash). -/
def simpleEscape (e : Nat) : Option Nat :=
  if e = 0x22 ∨ e = 0x5C ∨ e = 0x2F then some e
  else if e = 0x62 then some 0x08
  else if e = 0x66 then some 0x0C
  else if e = 0x6E then some 0x0A
  else if e = 0x72 then some 0x0D
  else if e = 0x74 then some 0x09
  else none

/-- Reading a string literal after its opening quote: the scanner's checks (no raw
control character, only the JSON escapes, `\u` followed by four hexadecimal
digits) together with `unquoteBytes` (escapes resolved, surrogate pairs combined,
a lone surrogate and every invalid UTF-8 byte turned into U+FFFD). Returns the
decoded string and the input after the closing quote. One iteration per unit of
fuel. -/
def unquoteLoop : Nat → List Nat → Option (GoString × List Nat)
  | 0, _ => none
  | _ + 1, [] => none
  | fuel + 1, c :: rest =>
    if c = 0x22 then some ([], rest)
    else if c = 0x5C then
      match rest with
      | [] => none
      | e :: rest1 =>
        if e = 0x75 then
          match getu4 (c :: rest) with
          | none => none
          | some rr =>
            let after := rest1.drop 4
            if 0xD800 ≤ rr ∧ rr < 0xE000 then
              let dec := match getu4 after with
                | some rr1 => utf16DecodeRune rr rr1
                | none => RuneError
              if dec ≠ RuneError then
                (unquoteLoop fuel (after.drop 6)).map fun p => (EncodeRune dec ++ p.1, p.2)
              else (unquoteLoop fuel after).map fun p => (EncodeRune RuneError ++ p.1, p.2)
            else (unquoteLoop fuel after).map fun p => (EncodeRune rr ++ p.1, p.2)
        else
          match simpleEscape e with
          | none => none
          | some x => (unquoteLoop fuel rest1).map fun p => (x :: p.1, p.2)
    else if c < 0x20 then none
    else if c < 0x80 then (unquoteLoop fuel rest).map fun p => (c :: p.1, p.2)
    else
      let d := DecodeRune (c :: rest)
      (unquoteLoop fuel ((c :: rest).drop d.2)).map fun p => (EncodeRune d.1 ++ p.1, p.2)

/-- A string literal whose opening quote has been read. -/
def parseString (s : List Nat) : Option (GoString × List Nat) := unquoteLoop s.length s

/-- The function `isSpace` of the scanner. -/
def isSpace (c : Nat) : Bool := c = 0x20 || c = 0x09 || c = 0x0D || c = 0x0A

/-- Skipping insignificant white space. -/
def skipSpace : List Nat → List Nat
  | [] => []
  | c :: rest => if isSpace c then skipSpace rest else c :: rest

/-- A decimal digit. -/
def isDigit (c : Nat) : Bool := decide (0x30 ≤ c) && decide (c ≤ 0x39)

/-- The longest prefix of digits, and the rest. -/
def spanDigits : List Nat → List Nat × List Nat
  | [] => ([], [])
  | c :: rest =>
    if isDigit c then (c :: (spanDigits rest).1, (spanDigits rest).2) else ([], c :: rest)

/-- The integer part of a number: `0`, or a nonzero digit followed by digits. -/
def parseInt (s : List Nat) : Option (List Nat × List Nat) :=
  match s with
  | [] => none
  | c :: rest =>
    if c = 0x30 then some ([c], rest)
    else if isDigit c then some (c :: (spanDigits rest).1, (spanDigits rest).2)
    else none

/-- The optional fraction of a number: a dot followed by at least one digit. -/
def parseFrac (s : List Nat) : Option (List Nat × List Nat) :=
  match s with
  | 0x2E :: rest =>
    match spanDigits rest with
    | ([], _) => none
    | (ds, r) => some (0x2E :: ds, r)
  | _ => some ([], s)

/-- The digits of an exponent, after its optional sign. -/
def parseExpDigits (pre : List Nat) (s : List Nat) : Option (List Nat × List Nat) :=
  match spanDigits s with
  | ([], _) => none
  | (ds, r) => some (pre ++ ds, r)

/-- The optional exponent of a number. -/
def parseExp (s : List Nat) : Option (List Nat × List Nat) :=
  match s with
  | [] => some ([], [])
  | e :: rest =>
    if e = 0x65 ∨ e = 0x45 then
      match rest with
      | [] => none
      | g :: rest1 =>
        if g = 0x2B ∨ g = 0x2D then parseExpDigits [e, g] rest1
        else parseExpDigits [e] rest
    else some ([], s)

/-- A number literal: its text and the input after it. -/
def parseNumber (s : List Nat) : Option (List Nat × List Nat) :=
  let body := fun (sign : List Nat) (t : List Nat) =>
    match parseInt t with
    | none => none
    | some (i, r1) =>
      match parseFrac r1 with
      | none => none
      | some (f, r2) =>
        match parseExp r2 with
        | none => none
        | some (e, r3) => some (sign ++ i ++ f ++ e, r3)
  match s with
  | 0x2D :: rest => body [0x2D] rest
  | _ => body [] s

/-- The constant `maxNestingDepth` of the scanner: how many objects and arrays may
be open at once. -/
def maxNestingDepth : Nat := 10000

/-- A value that is not an object or an array, at the head of the input: a string, a
number or one of the three literal names. -/
def parseScalar (s : List Nat) : Option (JSON × List Nat) :=
  match s with
  | [] => none
  | c :: rest =>
    if c = 0x22 then (parseString rest).map fun p => (JSON.str p.1, p.2)
    else if c = 0x2D ∨ isDigit c = true then (parseNumber s).map fun p => (JSON.num p.1, p.2)
    else if s.take 4 = [0x74, 0x72, 0x75, 0x65] then some (JSON.bool true, s.drop 4)
    else if s.take 5 = [0x66, 0x61, 0x6C, 0x73, 0x65] then some (JSON.bool false, s.drop 5)
    else if s.take 4 = [0x6E, 0x75, 0x6C, 0x6C] then some (JSON.null, s.drop 4)
    else none

/-- The members of an object after its opening brace (white space skipped, the
object not empty), up to and including the closing brace: pairs of a key string,
a colon and a value, separated by commas. `value` reads a member's value. One
member per unit of fuel. -/
def parseMembers (value : List Nat → Option (JSON × List Nat)) :
    Nat → List Nat → Option (List (GoString × JSON) × List Nat)
  | 0, _ => none
  | fuel + 1, s =>
    match s with
    | [] => none
    | q :: r =>
      if q = 0x22 then
        match parseString r with
        | none => none
        | some (k, r1) =>
          match skipSpace r1 with
          | [] => none
          | col :: r2 =>
            if col = 0x3A then
              match value (skipSpace r2) with
              | none => none
              | some (v, r3) =>
                match skipSpace r3 with
                | [] => none
                | sep :: r4 =>
                  if sep = 0x2C then
                    (parseMembers value fuel (skipSpace r4)).map fun p => ((k, v) :: p.1, p.2)
                  else if sep = 0x7D then some ([(k, v)], r4)
                  else none
            else none
      else none

/-- The elements of an array after its opening bracket (white space skipped, the
array not empty), up to and including the closing bracket. `value` reads an
element. One element per unit of fuel. -/
def parseElements (value : List Nat → Option (JSON × List Nat)) :
    Nat → List Nat → Option (List JSON × List Nat)
  | 0, _ => none
  | fuel + 1, s =>
    match value s with
    | none => none
    | some (v, r3) =>
      match skipSpace r3 with
      | [] => none
      | sep :: r4 =>
        if sep = 0x2C then
          (parseElements value fuel (skipSpace r4)).map fun p => (v :: p.1, p.2)
        else if sep = 0x5D then some ([v], r4)
        else none

/-- A JSON value at the head of the input (white space already skipped): the value
and the input after it. The first argument is how many more objects and arrays
may be opened around and inside this value: opening one when none is left is
the scanner's error of exceeded depth. The members of an object and the elements
of an array each take at least one byte, so the length of the input is fuel
enough for them. -/
def parseValue : Nat → List Nat → Option (JSON × List Nat)
  | 0, s =>
    match s with
    | [] => none
    | c :: _ => if c = 0x7B ∨ c = 0x5B then none else parseScalar s
  | depth + 1, s =>
    match s with
    | [] => none
    | c :: rest =>
      if c = 0x7B then
        match skipSpace rest with
        | [] => none
        | d :: r =>
          if d = 0x7D then some (JSON.obj [], r)
          else
            (parseMembers (parseValue depth) (d :: r).length (d :: r)).map
              fun p => (JSON.obj p.1, p.2)
      else if c = 0x5B then
        match skipSpace rest with
        | [] => none
        | d :: r =>
          if d = 0x5D then some (JSON.arr [], r)
          else
            (parseElements (parseValue depth) (d :: r).length (d :: r)).map
              fun p => (JSON.arr p.1, p.2)
      else parseScalar s

/-- Decoding a whole input as one JSON value (what `json.Unmarshal` into an
empty interface accepts): optional white space, a value, optional white space, end
of input. `none` is a syntax error. -/
def decode (s : List Nat) : Option JSON :=
  match parseValue maxNestingDepth (skipSpace s) with
  | none => none
  | some (v, rest) => if skipSpace rest = [] then some v else none

/-- The skeleton of an event sent by Pusher (`type Event struct`). -/
structure Event where
  /-- The field `Event`, JSON name `event`. -/
  Event : GoString
  /-- The field `Data`, JSON name `data`. -/
  Data : GoString
  deriving DecidableEq, Repr

/-- The errors `json.Unmarshal` returns. -/
inductive UnmarshalError where
  | invalidJSON
  | wrongType
  deriving DecidableEq, Repr

/-- The case folding of `encoding/json` on an ASCII byte. -/
def foldByte (c : Nat) : Nat := if 0x61 ≤ c ∧ c ≤ 0x7A then c - 0x20 else c

/-- Whether a JSON key names a struct field whose name is ASCII letters other than
`k` and `s`: equality of the folded names. -/
def equalFold (key name : GoString) : Bool := key.map foldByte = name.map foldByte

/-- Storing a JSON value into a field of type `string` (`literalStore`): a string
is stored, `null` leaves the field alone, anything else is a type error and leaves
the field alone. Returns the field and whether there was an error. -/
def storeString (cur : GoString) (v : JSON) : GoString × Bool :=
  match v with
  | JSON.str x => (x, false)
  | JSON.null => (cur, false)
  | _ => (cur, true)

/-- The first error is the one kept (`saveError`). -/
def saveError (e : Option UnmarshalError) (bad : Bool) : Option UnmarshalError :=
  match e with
  | some x => some x
  | none => if bad then some UnmarshalError.wrongType else none

/-- Decoding one object member into an `Event`: the key selects the field by
case-insensitive match, an unknown key is skipped, a type error is recorded and
decoding goes on. -/
def unmarshalMember (st : Event × Option UnmarshalError) (kv : GoString × JSON) :
    Event × Option UnmarshalError :=
  if equalFold kv.1 (ascii "event") then
    ({ st.1 with Event := (storeString st.1.Event kv.2).1 },
      saveError st.2 (storeString st.1.Event kv.2).2)
  else if equalFold kv.1 (ascii "data") then
    ({ st.1 with Data := (storeString st.1.Data kv.2).1 },
      saveError st.2 (storeString st.1.Data kv.2).2)
  else st

/-- The call `json.Unmarshal(payload, &message)` for `message : Event`: the value of
`message` afterwards and the error returned. The input is checked first, and on a
syntax error `message` is not touched; `null` is a no-op; a value that is not an
object is a type error. -/
def Unmarshal (payload : List Nat) (message : Event) : Event × Option UnmarshalError :=
  match decode payload with
  | none => (message, some UnmarshalError.invalidJSON)
  | some (JSON.obj ms) => ms.foldl unmarshalMember (message, none)
  | some JSON.null => (message, none)
  | some _ => (message, some UnmarshalError.wrongType)

/-! ## net/url -/

/-- The bytes `url.QueryEscape` leaves alone: letters, digits, `-`, `_`, `.`, `~`. -/
def unreserved (c : Nat) : Bool :=
  (decide (0x61 ≤ c) && decide (c ≤ 0x7A)) || (decide (0x41 ≤ c) && decide (c ≤ 0x5A))
    || (decide (0x30 ≤ c) && decide (c ≤ 0x39)) || c = 0x2D || c = 0x5F || c = 0x2E || c = 0x7E

/-- The table `upperhex`: the upper-case hexadecimal digit of a value below 16. -/
def upperhex (n : Nat) : Nat := if n < 10 then 0x30 + n else 0x37 + n

/-- The function `url.QueryEscape`: a space becomes `+`, any other byte that is not
unreserved becomes `%XX`. -/
def QueryEscape (s : GoString) : GoString :=
  s.flatMap fun c =>
    if unreserved c then [c]
    else if c = 0x20 then [0x2B]
    else [0x25, upperhex (c / 16), upperhex (c % 16)]

/-- A value of type `url.Values` (`map[string][]string`), by its entries. -/
abbrev Values := List (GoString × List GoString)

/-- The method `Values.Set`: the key gets the single value, replacing what it had. -/
def Values.Set (v : Values) (key value : GoString) : Values :=
  if v.any (fun e => e.1 = key) then v.map fun e => if e.1 = key then (key, [value]) else e
  else v ++ [(key, [value])]

/-- The pairs `key=value` of one key, in the order of its values. -/
def encodePairs (key : GoString) (vs : List GoString) : List (List Nat) :=
  vs.map fun v => QueryEscape key ++ [0x3D] ++ QueryEscape v

/-- Joining with `&`. -/
def joinAmp : List (List Nat) → List Nat
  | [] => []
  | [x] => x
  | x :: y :: rest => x ++ [0x26] ++ joinAmp (y :: rest)

/-- The method `Values.Encode`: the URL-encoded form, sorted by key. -/
def Values.Encode (v : Values) : GoString :=
  joinAmp ((sortByKey v).flatMap fun e => encodePairs e.1 e.2)

/-! ## time -/

/-- The constant `time.Second`, in nanoseconds. -/
def Second : Int := 1000000000

/-- The constant `checkWait`. -/
def checkWait : Int := 120 * Second

/-- The constant `pongTimeout`. -/
def pongTimeout : Int := 30 * Second

/-- The constant `writeTimeout`. -/
def writeTimeout : Int := 15 * Second

/-- The largest `time.Duration` (an `int64`). -/
def maxDuration : Int := 2 ^ 63 - 1

/-- The smallest `time.Duration`. -/
def minDuration : Int := -(2 ^ 63)

/-- The method `Time.Sub`: the difference of two instants, saturating at the bounds of
`Duration`. -/
def Sub (t u : Int) : Int :=
  if maxDuration < t - u then maxDuration
  else if t - u < minDuration then minDuration
  else t - u

/-- The function `time.Since` at clock reading `now`. -/
def Since (now t : Int) : Int := Sub now t

/-! ## Channels -/

/-- A Go channel of capacity `cap`, by the values sent and not yet received, oldest
first. The first `cap` of them sit in the buffer; each of the others is held by a
sender parked on the channel, and the runtime lets parked senders in in the order
they arrived, so a receive always takes the oldest value. -/
structure Chan (α : Type) where
  /-- The capacity given to `make`. -/
  cap : Nat
  /-- The values sent and not yet received. -/
  queue : List α

/-- The call `make(chan T, cap)`. -/
def Chan.make {α : Type} (cap : Nat) : Chan α := { cap := cap, queue := [] }

/-- The statement `ch <- v`. -/
def Chan.send {α : Type} (ch : Chan α) (v : α) : Chan α := { ch with queue := ch.queue ++ [v] }

/-- The expression `<-ch`: the oldest value and the channel without it, `none` when
the receiver has to wait. -/
def Chan.recv {α : Type} (ch : Chan α) : Option (α × Chan α) :=
  match ch.queue with
  | [] => none
  | v :: rest => some (v, { ch with queue := rest })

/-- The number of senders parked on the channel. -/
def Chan.parked {α : Type} (ch : Chan α) : Nat := ch.queue.length - ch.cap

/-! ## The client -/

/-- A value of type `chan string`: `none` is the nil channel, `some n` the channel
created by the `n`-th `make`. -/
abbrev ChanRef := Option Nat

/-- The read `m[key]` of a `map[string]chan string`: nil when the key is absent. -/
def mapGet (m : List (GoString × ChanRef)) (key : GoString) : ChanRef :=
  match m with
  | [] => none
  | e :: rest => if e.1 = key then e.2 else mapGet rest key

/-- The assignment `m[key] = v`: the entry is replaced, or added when absent. -/
def mapSet (m : List (GoString × ChanRef)) (key : GoString) (v : ChanRef) :
    List (GoString × ChanRef) :=
  match m with
  | [] => [(key, v)]
  | e :: rest => if e.1 = key then (key, v) :: rest else e :: mapSet rest key v

/-- The struct `Client`. -/
structure Client where
  /-- The Pusher application key. -/
  Key : GoString
  /-- The websocket connection, by the number of the dial that opened it. -/
  ws : Nat
  /-- The map from event name to the channel of its callback. -/
  handlers : List (GoString × ChanRef)
  /-- Messages on this channel will be written to the websocket. -/
  send : Chan (List Nat)

/-- A goroutine started by `On`: it receives from `channel` for ever and calls
`handler` on each value. `event` is the name it was started for. -/
structure DeliveryLoop where
  /-- The event name given to `On`. -/
  event : GoString
  /-- The channel the loop receives from. -/
  channel : Nat
  /-- The callback, by an identifier. -/
  handler : Nat
  deriving DecidableEq, Repr

/-- The client together with the goroutines `On` has started and the count of
delivery channels made so far. -/
structure Runtime where
  /-- The client. -/
  client : Client
  /-- The delivery loops, in the order they were started. -/
  loops : List DeliveryLoop
  /-- The number of the next channel `make` returns. -/
  nextChan : Nat

/-- What a call that may end in `log.Fatal` gives: `log.Fatal` prints and calls
`os.Exit(1)`, so the process ends there and no later statement runs. -/
inductive Result (α : Type) where
  | ok (v : α)
  | fatal
  deriving DecidableEq, Repr

/-- The constant `pusherURL`. -/
def pusherURL : GoString := ascii "ws://ws.pusherapp.com/app/"

/-- The constant `clientName`. -/
def clientName : GoString := ascii "Go-pusher.go"

/-- The constant `version`. -/
def version : GoString := ascii "0.0.1"

/-- The constant `protocol`. -/
def protocol : GoString := ascii "7"

/-- The URL built at the head of `startWebSocket`. -/
def handshakeURL (key : GoString) : GoString :=
  let params : Values := []
  let params := params.Set (ascii "client") clientName
  let params := params.Set (ascii "version") version
  let params := params.Set (ascii "protocol") protocol
  pusherURL ++ key ++ ascii "?" ++ params.Encode

/-- The function `startWebSocket`: `dial` is what `websocket.DefaultDialer.Dial` answers
for a URL (`none` is an error). Returns the URL dialed and the connection; a dial
error ends in `log.Fatal`. -/
def startWebSocket (key : GoString) (dial : GoString → Option Nat) : GoString × Result Nat :=
  let url := handshakeURL key
  match dial url with
  | none => (url, Result.fatal)
  | some ws => (url, Result.ok ws)

/-- The function `Connect`. -/
def Connect (key : GoString) (dial : GoString → Option Nat) : Result Runtime :=
  match (startWebSocket key dial).2 with
  | Result.fatal => Result.fatal
  | Result.ok ws =>
    Result.ok
      { client := { send := Chan.make 256, handlers := [], ws := ws, Key := key },
        loops := [], nextChan := 0 }

/-- The method `Subscribe`. -/
def Subscribe (c : Client) (channel : GoString) : Client :=
  let message := Marshal [
    (ascii "event", GoValue.str (ascii "pusher:subscribe")),
    (ascii "data", GoValue.mapSS [(ascii "channel", channel)])]
  { c with send := c.send.send message }

/-- The method `Unsubscribe`. -/
def Unsubscribe (c : Client) (channel : GoString) : Client :=
  let message := Marshal [
    (ascii "event", GoValue.str (ascii "pusher:unsubscribe")),
    (ascii "data", GoValue.mapSS [(ascii "channel", channel)])]
  { c with send := c.send.send message }

/-- The method `On`: a new channel, stored in the map under `event`, and a new
goroutine that serves it. -/
def On (rt : Runtime) (event : GoString) (handler : Nat) : Runtime :=
  let eventChannel := rt.nextChan
  { client := { rt.client with handlers := mapSet rt.client.handlers event (some eventChannel) },
    loops := rt.loops ++ [{ event := event, channel := eventChannel, handler := handler }],
    nextChan := rt.nextChan + 1 }

/-- A sequence of calls of `On`. -/
def registerAll (rt : Runtime) (regs : List (GoString × Nat)) : Runtime :=
  regs.foldl (fun r e => On r e.1 e.2) rt

/-- The method `reconnect`: the connections closed, and the client with the new
connection; a dial error ends in `log.Fatal` (in `startWebSocket`). -/
def reconnect (c : Client) (dial : GoString → Option Nat) : List Nat × Result Client :=
  match (startWebSocket c.Key dial).2 with
  | Result.fatal => ([c.ws], Result.fatal)
  | Result.ok ws => ([c.ws], Result.ok { c with ws := ws })

/-- The method `isActive`, at clock reading `now` and with the value of the
variable `latestActivity`. -/
def isActive (now latestActivity : Int) : Bool := decide (Since now latestActivity < checkWait)

/-- A call of `WriteMessage` on a connection, with the write deadline set before it. -/
structure WriteCall where
  /-- The connection written to. -/
  ws : Nat
  /-- The deadline given to `SetWriteDeadline`. -/
  deadline : Int
  /-- The websocket message type. -/
  messageType : Nat
  /-- The payload. -/
  payload : List Nat
  deriving DecidableEq, Repr

/-- The constant `websocket.TextMessage`. -/
def TextMessage : Nat := 1

/-- The constant `websocket.PingMessage`. -/
def PingMessage : Nat := 9

/-- The method `write`: `err` is what `WriteMessage` answers. Returns the call made
and the error, unchanged. -/
def write (c : Client) (now : Int) (messageType : Nat) (payload : List Nat) (err : Bool) :
    WriteCall × Bool :=
  ({ ws := c.ws, deadline := now + writeTimeout, messageType := messageType, payload := payload },
    err)

/-- The method `ping`: an error of `WriteMessage` ends in `log.Fatal`. -/
def ping (c : Client) (now : Int) (err : Bool) : WriteCall × Result Unit :=
  ({ ws := c.ws, deadline := now + writeTimeout, messageType := PingMessage, payload := [] },
    if err then Result.fatal else Result.ok ())

/-- One step of the monitor, as seen from outside. -/
inductive MonitorEvent where
  | sleep (d : Int)
  | ping (call : WriteCall) (err : Bool)
  | reconnect (closed : List Nat)
  | fatal
  deriving DecidableEq, Repr

/-- What the environment answers during one iteration of the monitor. A call of
`time.Sleep` is taken to last exactly its argument. -/
structure MonitorEnv where
  /-- The clock at the head of the iteration. -/
  now : Int
  /-- The value of the variable `latestActivity` at each instant. -/
  latestActivity : Int → Int
  /-- How long the call of `ping` lasts. -/
  pingTook : Int
  /-- Whether `WriteMessage` fails in `ping`. -/
  pingErr : Bool
  /-- What the dialer answers in `reconnect`. -/
  dial : GoString → Option Nat

/-- The instant of the first check of an iteration. -/
def MonitorEnv.check1 (env : MonitorEnv) : Int := env.now + checkWait

/-- The instant at which the grace period starts: the ping has returned. -/
def MonitorEnv.graceStart (env : MonitorEnv) : Int := env.check1 + env.pingTook

/-- The instant of the second check. -/
def MonitorEnv.check2 (env : MonitorEnv) : Int := env.graceStart + pongTimeout

/-- The body of the loop of `monitor`: the events of the iteration, and the client
afterwards unless the process has ended. -/
def monitorIteration (c : Client) (env : MonitorEnv) : List MonitorEvent × Result Client :=
  if isActive env.check1 (env.latestActivity env.check1) then
    ([MonitorEvent.sleep checkWait], Result.ok c)
  else
    match (ping c env.check1 env.pingErr).2 with
    | Result.fatal =>
      ([MonitorEvent.sleep checkWait,
        MonitorEvent.ping (ping c env.check1 env.pingErr).1 true,
        MonitorEvent.fatal], Result.fatal)
    | Result.ok _ =>
      if isActive env.check2 (env.latestActivity env.check2) then
        ([MonitorEvent.sleep checkWait,
          MonitorEvent.ping (ping c env.check1 env.pingErr).1 false,
          MonitorEvent.sleep pongTimeout], Result.ok c)
      else
        match (reconnect c env.dial).2 with
        | Result.fatal =>
          ([MonitorEvent.sleep checkWait,
            MonitorEvent.ping (ping c env.check1 env.pingErr).1 false,
            MonitorEvent.sleep pongTimeout,
            MonitorEvent.reconnect (reconnect c env.dial).1,
            MonitorEvent.fatal], Result.fatal)
        | Result.ok c1 =>
          ([MonitorEvent.sleep checkWait,
            MonitorEvent.ping (ping c env.check1 env.pingErr).1 false,
            MonitorEvent.sleep pongTimeout,
            MonitorEvent.reconnect (reconnect c env.dial).1], Result.ok c1)

/-- The method `monitor`, for as many iterations as there are environments: the
events of each iteration that ran, and the client afterwards unless the process
has ended. -/
def monitor (c : Client) : List MonitorEnv → List (List MonitorEvent) × Result Client
  | [] => ([], Result.ok c)
  | env :: envs =>
    match (monitorIteration c env).2 with
    | Result.fatal => ([(monitorIteration c env).1], Result.fatal)
    | Result.ok c1 =>
      ((monitorIteration c env).1 :: (monitor c1 envs).1, (monitor c1 envs).2)

/-- The method `handleEvent`: the client afterwards and the values sent on delivery
channels, each with its channel. (The source declares the parameter `payload`
without a type; it is the message read from the connection.) -/
def handleEvent (c : Client) (payload : List Nat) : Client × List (Nat × GoString) :=
  let message := (Unmarshal payload { Event := [], Data := [] }).1
  let event := message.Event
  match mapGet c.handlers event with
  | some ch => (c, [(ch, message.Data)])
  | none => (c, [])

/-- The method `handleEvent` on a sequence of payloads, in order. -/
def handleEvents (c : Client) : List (List Nat) → Client × List (Nat × GoString)
  | [] => (c, [])
  | p :: rest =>
    ((handleEvents (handleEvent c p).1 rest).1,
      (handleEvent c p).2 ++ (handleEvents (handleEvent c p).1 rest).2)

/-- What `ReadMessage` answers: a message, with the clock reading right after it, or
an error. -/
inductive Read where
  | message (now : Int) (payload : List Nat)
  | error
  deriving DecidableEq, Repr

/-- The state of the reader after a run. -/
structure ReaderRun where
  /-- The value of the variable `latestActivity`. -/
  latestActivity : Int
  /-- The values sent on delivery channels. -/
  sends : List (Nat × GoString)
  /-- Whether the statement `c.ws.Close()` after the loop has run. -/
  closed : Bool
  /-- Whether the process has ended in `log.Fatal`. -/
  exited : Bool
  deriving DecidableEq, Repr

/-- The method `reader` against a sequence of answers of `ReadMessage`. On an error
the loop calls `log.Fatal`, which ends the process: the `break` after it and the
`Close` after the loop are not reached. When the answers are used up the reader is
waiting in `ReadMessage`. -/
def reader (c : Client) (latestActivity : Int) : List Read → ReaderRun
  | [] => { latestActivity := latestActivity, sends := [], closed := false, exited := false }
  | Read.error :: _ =>
    { latestActivity := latestActivity, sends := [], closed := false, exited := true }
  | Read.message now payload :: rest =>
    let r := reader (handleEvent c payload).1 now rest
    { r with sends := (handleEvent c payload).2 ++ r.sends }

/-- The method `writer`, for at most `n` iterations: the `i`-th write happens at clock
reading `(env i).1` and fails when `(env i).2`. Returns the calls made, each with
its result, and the client afterwards. The loop stops early only when the queue
is empty (the writer then waits on `c.send`). The result of `write` is dropped. -/
def writer : Nat → Client → (Nat → Int × Bool) → List (WriteCall × Bool) × Client
  | 0, c, _ => ([], c)
  | n + 1, c, env =>
    match c.send.recv with
    | none => ([], c)
    | some (message, ch) =>
      let w := write c (env 0).1 TextMessage message (env 0).2
      let r := writer n { c with send := ch } fun i => env (i + 1)
      (w :: r.1, r.2)

/-- The values a delivery loop receives, in order, out of all those sent: each is
passed to the loop's callback. -/
def received (l : DeliveryLoop) (sends : List (Nat × GoString)) : List GoString :=
  (sends.filter fun s => s.1 = l.channel).map fun s => s.2

/-- The calls of its callback that a delivery loop makes: one per value received, in
order, each a pair of the callback and the value passed to it. -/
def loopCalls (l : DeliveryLoop) (sends : List (Nat × GoString)) : List (Nat × GoString) :=
  (received l sends).map fun d => (l.handler, d)

/-! ## Vocabulary of the statements -/

/-- The callback registered for an event name by a sequence of `On` calls: the one
given by the latest call for that name, none if the name was never registered. -/
def registeredHandler (regs : List (GoString × Nat)) (event : GoString) : Option Nat :=
  regs.foldl (fun acc r => if r.1 = event then some r.2 else acc) none

/-- What `appendString` writes for one rune of a valid string: the rune escaped, or
its UTF-8 bytes. -/
def escRune (r : Nat) : List Nat :=
  if r < 0x80 then (if htmlSafe r then [r] else escapeByte r)
  else if r = 0x2028 ∨ r = 0x2029 then [0x5C, 0x75, 0x32, 0x30, 0x32, hex (r % 16)]
  else EncodeRune r

/-- The zero value of `Event`, the value of `message` before `json.Unmarshal`. -/
def zeroEvent : Event := { Event := [], Data := [] }

/-- The envelope `handleEvent` finds in `message` after `json.Unmarshal`. -/
def decodeEvent (payload : List Nat) : Event := (Unmarshal payload zeroEvent).1

/-- Every registered channel has been made, and distinct event names have distinct
channels. -/
def RegistryOK (rt : Runtime) : Prop :=
  (∀ e ch, mapGet rt.client.handlers e = some ch → ch < rt.nextChan) ∧
  (∀ e e' ch, mapGet rt.client.handlers e = some ch → mapGet rt.client.handlers e' = some ch →
    e = e')

/-- A client as `Connect` returns it, for the application key `abc123`. -/
def exampleClient : Client :=
  { Key := ascii "abc123", ws := 1, handlers := [], send := Chan.make 256 }

/-- The runtime around `exampleClient`: no delivery loop yet. -/
def exampleRuntime : Runtime := { client := exampleClient, loops := [], nextChan := 0 }

/-- An iteration of the monitor in which nothing has been heard since instant 0 and
the write of the ping fails. -/
def staleEnv : MonitorEnv :=
  { now := 0, latestActivity := fun _ => 0, pingTook := 0, pingErr := true,
    dial := fun _ => some 2 }

/-! # Theorems -/

/-! ## UTF-8: decoding what was encoded -/

/-- An ASCII byte decodes to itself. -/
theorem DecodeRune_one (s0 : Nat) (t : List Nat) (h : s0 < 0x80) :
    DecodeRune (s0 :: t) = (s0, 1) := by
  unfold DecodeRune
  simp only [h, if_true]

/-- A well-formed two-byte sequence. -/
theorem DecodeRune_two (s0 s1 : Nat) (t : List Nat) (h0 : 0xC2 ≤ s0) (h0' : s0 < 0xE0)
    (h1 : 0x80 ≤ s1) (h1' : s1 ≤ 0xBF) :
    DecodeRune (s0 :: s1 :: t) = ((s0 % 32) * 64 + s1 % 64, 2) := by
  unfold DecodeRune
  have a1 : ¬ s0 < 0x80 := by omega
  have a2 : ¬ (s0 < 0xC2 ∨ 0xF4 < s0) := by omega
  have a3 : s0 ≠ 0xE0 := by omega
  have a4 : s0 ≠ 0xF0 := by omega
  have a5 : s0 ≠ 0xED := by omega
  have a6 : s0 ≠ 0xF4 := by omega
  have a7 : ¬ (s1 < 0x80 ∨ 0xBF < s1) := by omega
  simp only [a1, a2, a3, a4, a5, a6, a7, h0', if_true, if_false, le_refl]

/-- A well-formed three-byte sequence. -/
theorem DecodeRune_three (s0 s1 s2 : Nat) (t : List Nat) (h0 : 0xE0 ≤ s0) (h0' : s0 < 0xF0)
    (h1 : 0x80 ≤ s1) (h1' : s1 ≤ 0xBF) (hE0 : s0 = 0xE0 → 0xA0 ≤ s1) (hED : s0 = 0xED → s1 ≤ 0x9F)
    (h2 : 0x80 ≤ s2) (h2' : s2 ≤ 0xBF) :
    DecodeRune (s0 :: s1 :: s2 :: t) = ((s0 % 16) * 4096 + (s1 % 64) * 64 + s2 % 64, 3) := by
  unfold DecodeRune
  have a1 : ¬ s0 < 0x80 := by omega
  have a2 : ¬ (s0 < 0xC2 ∨ 0xF4 < s0) := by omega
  have a3 : ¬ s0 < 0xE0 := by omega
  have a4 : s0 ≠ 0xF0 := by omega
  have a6 : s0 ≠ 0xF4 := by omega
  have a7 : ¬ (s2 < 0x80 ∨ 0xBF < s2) := by omega
  have a8 : ¬ ((3 : Nat) ≤ 2) := by omega
  simp only [a1, a2, a3, a4, a6, a7, a8, h0', if_true, if_false, le_refl]
  by_cases c1 : s0 = 0xE0
  · have b : ¬ (s1 < 0xA0 ∨ 0xBF < s1) := by have := hE0 c1; omega
    have c2 : s0 ≠ 0xED := by omega
    simp only [c1, c2, b, if_true, if_false]
    simp
    omega
  · by_cases c2 : s0 = 0xED
    · have b : ¬ (s1 < 0x80 ∨ 0x9F < s1) := by have := hED c2; omega
      simp only [c1, c2, b, if_true, if_false]
      simp
      omega
    · have b : ¬ (s1 < 0x80 ∨ 0xBF < s1) := by omega
      simp only [c1, c2, b, if_true, if_false]

/-- A well-formed four-byte sequence. -/
theorem DecodeRune_four (s0 s1 s2 s3 : Nat) (t : List Nat) (h0 : 0xF0 ≤ s0) (h0' : s0 ≤ 0xF4)
    (h1 : 0x80 ≤ s1) (h1' : s1 ≤ 0xBF) (hF0 : s0 = 0xF0 → 0x90 ≤ s1) (hF4 : s0 = 0xF4 → s1 ≤ 0x8F)
    (h2 : 0x80 ≤ s2) (h2' : s2 ≤ 0xBF) (h3 : 0x80 ≤ s3) (h3' : s3 ≤ 0xBF) :
    DecodeRune (s0 :: s1 :: s2 :: s3 :: t)
      = ((s0 % 8) * 262144 + (s1 % 64) * 4096 + (s2 % 64) * 64 + s3 % 64, 4) := by
  unfold DecodeRune
  have a1 : ¬ s0 < 0x80 := by omega
  have a2 : ¬ (s0 < 0xC2 ∨ 0xF4 < s0) := by omega
  have a3 : ¬ s0 < 0xE0 := by omega
  have a3' : ¬ s0 < 0xF0 := by omega
  have a4 : s0 ≠ 0xE0 := by omega
  have a6 : s0 ≠ 0xED := by omega
  have a7 : ¬ (s2 < 0x80 ∨ 0xBF < s2) := by omega
  have a7' : ¬ (s3 < 0x80 ∨ 0xBF < s3) := by omega
  have a8 : ¬ ((4 : Nat) ≤ 2) := by omega
  have a9 : ¬ ((4 : Nat) ≤ 3) := by omega
  simp only [a1, a2, a3, a3', a4, a6, a7, a7', a8, a9, if_true, if_false, le_refl]
  by_cases c1 : s0 = 0xF0
  · have b : ¬ (s1 < 0x90 ∨ 0xBF < s1) := by have := hF0 c1; omega
    have c2 : s0 ≠ 0xF4 := by omega
    simp only [c1, c2, b, if_true, if_false]
    simp
    omega
  · by_cases c2 : s0 = 0xF4
    · have b : ¬ (s1 < 0x80 ∨ 0x8F < s1) := by have := hF4 c2; omega
      simp only [c1, c2, b, if_true, if_false]
      simp
      omega
    · have b : ¬ (s1 < 0x80 ∨ 0xBF < s1) := by omega
      simp only [c1, c2, b, if_true, if_false]

/-- Decoding the encoding of a scalar value gives the value and the width of its
encoding, whatever follows. -/
theorem DecodeRune_EncodeRune (r : Nat) (h : ValidRune r) (tail : List Nat) :
    DecodeRune (EncodeRune r ++ tail) = (r, (EncodeRune r).length) := by
  unfold ValidRune MaxRune at h
  by_cases h1 : r ≤ 0x7F
  · have e : EncodeRune r = [r] := by simp [EncodeRune, h1]
    rw [e]
    exact DecodeRune_one r tail (by omega)
  by_cases h2 : r ≤ 0x7FF
  · have e : EncodeRune r = [0xC0 + r / 64, 0x80 + r % 64] := by simp [EncodeRune, h1, h2]
    rw [e]
    show DecodeRune ((0xC0 + r / 64) :: (0x80 + r % 64) :: tail) = _
    rw [DecodeRune_two _ _ _ (by omega) (by omega) (by omega) (by omega)]
    simp only [Prod.mk.injEq, List.length_cons, List.length_nil]
    exact ⟨by omega, trivial⟩
  by_cases h3 : r ≤ 0xFFFF
  · have e : EncodeRune r = [0xE0 + r / 4096, 0x80 + r / 64 % 64, 0x80 + r % 64] := by
      have : ¬ (MaxRune < r ∨ (0xD800 ≤ r ∧ r ≤ 0xDFFF)) := by unfold MaxRune; omega
      simp [EncodeRune, h1, h2, h3, this]
    rw [e]
    show DecodeRune ((0xE0 + r / 4096) :: (0x80 + r / 64 % 64) :: (0x80 + r % 64) :: tail) = _
    rw [DecodeRune_three _ _ _ _ (by omega) (by omega) (by omega) (by omega) (by omega) (by omega)
      (by omega) (by omega)]
    simp only [Prod.mk.injEq, List.length_cons, List.length_nil]
    exact ⟨by omega, trivial⟩
  · have e : EncodeRune r
        = [0xF0 + r / 262144, 0x80 + r / 4096 % 64, 0x80 + r / 64 % 64, 0x80 + r % 64] := by
      have : ¬ (MaxRune < r ∨ (0xD800 ≤ r ∧ r ≤ 0xDFFF)) := by unfold MaxRune; omega
      simp [EncodeRune, h1, h2, h3, this]
    rw [e]
    show DecodeRune ((0xF0 + r / 262144) :: (0x80 + r / 4096 % 64) :: (0x80 + r / 64 % 64)
      :: (0x80 + r % 64) :: tail) = _
    rw [DecodeRune_four _ _ _ _ _ (by omega) (by omega) (by omega) (by omega) (by omega) (by omega)
      (by omega) (by omega) (by omega) (by omega)]
    simp only [Prod.mk.injEq, List.length_cons, List.length_nil]
    exact ⟨by omega, trivial⟩

/-- A rune above 0x7F is encoded by at least two bytes, the first at least 0xC0. -/
theorem EncodeRune_multi (r : Nat) (h : ¬ r ≤ 0x7F) :
    ∃ b bs, EncodeRune r = b :: bs ∧ 0xC0 ≤ b ∧ 2 ≤ (EncodeRune r).length := by
  unfold EncodeRune
  simp only [h, if_false]
  split_ifs
  · exact ⟨_, _, rfl, by omega, by simp⟩
  · exact ⟨_, _, rfl, by omega, by simp⟩
  · exact ⟨_, _, rfl, by omega, by simp⟩
  · exact ⟨_, _, rfl, by omega, by simp⟩

/-- Every rune is encoded by at least one byte. -/
theorem EncodeRune_length_pos (r : Nat) : 1 ≤ (EncodeRune r).length := by
  unfold EncodeRune
  split_ifs <;> simp

/-- The text of a sequence of runes, rune by rune. -/
theorem utf8Text_cons (r : Nat) (rs : List Nat) :
    utf8Text (r :: rs) = EncodeRune r ++ utf8Text rs := by
  simp [utf8Text]

/-! ## The JSON string literal of valid UTF-8 and its decoding -/

/-- One iteration of the encoder on a valid rune. -/
theorem appendStringLoop_step (r : Nat) (h : ValidRune r) (f : Nat) (T : List Nat) :
    appendStringLoop (f + 1) (EncodeRune r ++ T) = escRune r ++ appendStringLoop f T := by
  by_cases h1 : r ≤ 0x7F
  · have e : EncodeRune r = [r] := by simp [EncodeRune, h1]
    have h1' : r < 0x80 := by omega
    rw [e]
    simp only [List.cons_append, List.nil_append, appendStringLoop, escRune, h1', if_true]
    split_ifs <;> rfl
  · obtain ⟨b, bs, e, hb, hlen⟩ := EncodeRune_multi r h1
    have hd := DecodeRune_EncodeRune r h T
    have ht : (EncodeRune r ++ T).take (EncodeRune r).length = EncodeRune r := List.take_left' rfl
    have hdr : (EncodeRune r ++ T).drop (EncodeRune r).length = T := List.drop_left' rfl
    rw [e] at hd ht hdr
    rw [e]
    have hb' : ¬ b < 0x80 := by omega
    have h1' : ¬ r < 0x80 := by omega
    have hne : ¬ (r = RuneError ∧ (b :: bs).length = 1) := by
      rw [e] at hlen
      omega
    simp only [List.cons_append] at hd ht hdr ⊢
    simp only [appendStringLoop, hb', if_false, hd, hne, ht, hdr, escRune, h1', e]
    split_ifs <;> rfl

/-- The encoder on valid UTF-8, with enough fuel: the escapes of the runes in order. -/
theorem appendStringLoop_utf8 (rs : List Nat) (hv : ∀ r ∈ rs, ValidRune r) :
    ∀ fuel, rs.length ≤ fuel → appendStringLoop fuel (utf8Text rs) = rs.flatMap escRune := by
  induction rs with
  | nil =>
    intro fuel _
    cases fuel <;> rfl
  | cons r rs ih =>
    intro fuel hf
    obtain ⟨f, rfl⟩ : ∃ f, fuel = f + 1 := ⟨fuel - 1, by simp at hf; omega⟩
    rw [utf8Text_cons, appendStringLoop_step r (hv r (List.mem_cons_self _ _)),
      ih (fun x hx => hv x (List.mem_cons_of_mem _ hx)) f (by simp at hf; omega)]
    simp

/-- A text has at least as many bytes as runes. -/
theorem utf8Text_length (rs : List Nat) : rs.length ≤ (utf8Text rs).length := by
  induction rs with
  | nil => simp
  | cons r rs ih =>
    rw [utf8Text_cons, List.length_append, List.length_cons]
    have := EncodeRune_length_pos r
    omega

/-- The string literal of valid UTF-8. -/
theorem appendString_utf8 (rs : List Nat) (hv : ∀ r ∈ rs, ValidRune r) :
    appendString (utf8Text rs) = 0x22 :: (rs.flatMap escRune ++ [0x22]) := by
  unfold appendString
  rw [appendStringLoop_utf8 rs hv _ (utf8Text_length rs)]
  rfl

/-- One iteration of the decoder on what the encoder wrote for an ASCII rune. -/
theorem unquoteLoop_ascii (r : Nat) (h : r < 0x80) (f : Nat) (T : List Nat) :
    unquoteLoop (f + 1) (escRune r ++ T)
      = (unquoteLoop f T).map fun p => (EncodeRune r ++ p.1, p.2) := by
  interval_cases r <;> rfl

/-- One iteration of the decoder on what the encoder wrote for a valid rune. -/
theorem unquoteLoop_step (r : Nat) (h : ValidRune r) (f : Nat) (T : List Nat) :
    unquoteLoop (f + 1) (escRune r ++ T)
      = (unquoteLoop f T).map fun p => (EncodeRune r ++ p.1, p.2) := by
  by_cases h1 : r < 0x80
  · exact unquoteLoop_ascii r h1 f T
  by_cases h2 : r = 0x2028
  · subst h2; rfl
  by_cases h3 : r = 0x2029
  · subst h3; rfl
  have h1' : ¬ r ≤ 0x7F := by omega
  obtain ⟨b, bs, e, hb, hlen⟩ := EncodeRune_multi r h1'
  have hd := DecodeRune_EncodeRune r h T
  have hdr : (EncodeRune r ++ T).drop (EncodeRune r).length = T := List.drop_left' rfl
  have hesc : escRune r = EncodeRune r := by simp [escRune, h1, h2, h3]
  rw [hesc]
  rw [e] at hd hdr ⊢
  simp only [List.cons_append] at hd hdr ⊢
  have c1 : b ≠ 0x22 := by omega
  have c2 : b ≠ 0x5C := by omega
  have c3 : ¬ b < 0x20 := by omega
  have c4 : ¬ b < 0x80 := by omega
  simp only [unquoteLoop, c1, c2, c3, c4, if_false, hd, hdr, e, List.cons_append]

/-- The decoder undoes the encoder on valid UTF-8, up to the closing quote. -/
theorem unquoteLoop_escaped (rs : List Nat) (hv : ∀ r ∈ rs, ValidRune r) (rest : List Nat) :
    ∀ fuel, rs.length < fuel →
      unquoteLoop fuel (rs.flatMap escRune ++ 0x22 :: rest) = some (utf8Text rs, rest) := by
  induction rs with
  | nil =>
    intro fuel hf
    obtain ⟨f, rfl⟩ : ∃ f, fuel = f + 1 := ⟨fuel - 1, by simp at hf; omega⟩
    rfl
  | cons r rs ih =>
    intro fuel hf
    obtain ⟨f, rfl⟩ : ∃ f, fuel = f + 1 := ⟨fuel - 1, by simp at hf; omega⟩
    have hr := hv r (List.mem_cons_self _ _)
    rw [List.flatMap_cons, List.append_assoc, unquoteLoop_step r hr,
      ih (fun x hx => hv x (List.mem_cons_of_mem _ hx)) f (by simp at hf; omega)]
    simp [utf8Text_cons]

/-- The encoder writes at least one byte per rune. -/
theorem escRune_length_pos (r : Nat) : 1 ≤ (escRune r).length := by
  unfold escRune escapeByte
  have := EncodeRune_length_pos r
  split_ifs <;> simp
  omega

/-- The body of a literal has at least as many bytes as the string has runes. -/
theorem flatMap_escRune_length (rs : List Nat) : rs.length ≤ (rs.flatMap escRune).length := by
  induction rs with
  | nil => simp
  | cons r rs ih =>
    rw [List.flatMap_cons, List.length_append, List.length_cons]
    have := escRune_length_pos r
    omega

/-- Reading back a string literal of valid UTF-8. -/
theorem parseString_quoted (rs : List Nat) (hv : ∀ r ∈ rs, ValidRune r) (rest : List Nat) :
    parseString (rs.flatMap escRune ++ 0x22 :: rest) = some (utf8Text rs, rest) := by
  unfold parseString
  apply unquoteLoop_escaped rs hv rest
  have := flatMap_escRune_length rs
  simp only [List.length_append, List.length_cons]
  omega

/-- A string literal followed by more input, by its bytes. -/
theorem quoted_append (rs : List Nat) (hv : ∀ r ∈ rs, ValidRune r) (rest : List Nat) :
    appendString (utf8Text rs) ++ rest = 0x22 :: (rs.flatMap escRune ++ 0x22 :: rest) := by
  rw [appendString_utf8 rs hv]
  simp

/-! ## Parsing the objects the encoder writes -/

/-- A string literal of valid UTF-8 is read as that string, at every depth. -/
theorem parseValue_string (rs : List Nat) (hv : ∀ r ∈ rs, ValidRune r) (depth : Nat)
    (rest : List Nat) :
    parseValue depth (appendString (utf8Text rs) ++ rest)
      = some (JSON.str (utf8Text rs), rest) := by
  rw [quoted_append rs hv]
  cases depth <;> simp [parseValue, parseScalar, parseString_quoted rs hv]

/-- The last member of an object. -/
theorem parseMembers_last (value : List Nat → Option (JSON × List Nat)) (k : List Nat)
    (hk : ∀ r ∈ k, ValidRune r) (f : Nat) (input rest : List Nat) (v : JSON)
    (hsp : skipSpace input = input) (hval : value input = some (v, 0x7D :: rest)) :
    parseMembers value (f + 1) (appendString (utf8Text k) ++ 0x3A :: input)
      = some ([(utf8Text k, v)], rest) := by
  rw [quoted_append k hk, parseMembers]
  simp [parseString_quoted k hk, skipSpace, isSpace, hsp, hval]

/-- A member followed by a comma and more members. -/
theorem parseMembers_more (value : List Nat → Option (JSON × List Nat)) (k : List Nat)
    (hk : ∀ r ∈ k, ValidRune r) (f : Nat) (input more rest : List Nat) (v : JSON)
    (ms : List (GoString × JSON)) (hsp : skipSpace input = input)
    (hval : value input = some (v, 0x2C :: more)) (hsp2 : skipSpace more = more)
    (hms : parseMembers value f more = some (ms, rest)) :
    parseMembers value (f + 1) (appendString (utf8Text k) ++ 0x3A :: input)
      = some ((utf8Text k, v) :: ms, rest) := by
  rw [quoted_append k hk, parseMembers]
  simp [parseString_quoted k hk, skipSpace, isSpace, hsp, hval, hsp2, hms]

/-- A string literal does not start with white space. -/
theorem skipSpace_quoted (s t : List Nat) :
    skipSpace (appendString s ++ t) = appendString s ++ t := by
  simp [appendString, skipSpace, isSpace]

/-- An object whose first member follows the brace directly. -/
theorem parseValue_object_quoted (k : List Nat) (depth : Nat) (tail : List Nat) :
    parseValue (depth + 1) (0x7B :: (appendString k ++ tail))
      = (parseMembers (parseValue depth) (appendString k ++ tail).length
          (appendString k ++ tail)).map fun p => (JSON.obj p.1, p.2) := by
  have h : appendString k ++ tail
      = 0x22 :: (appendStringLoop k.length k ++ [0x22] ++ tail) := by
    simp [appendString]
  rw [h, parseValue]
  simp [skipSpace, isSpace]

/-- A string literal has its two quotes. -/
theorem appendString_length (s : GoString) : 2 ≤ (appendString s).length := by
  simp [appendString]

/-- The length of an input that starts with a string literal, as a successor. -/
theorem quoted_length (s t : List Nat) :
    ∃ f, (appendString s ++ t).length = f + 1 + 1 := by
  refine ⟨(appendString s ++ t).length - 2, ?_⟩
  have := appendString_length s
  simp only [List.length_append]
  omega

/-- The bytes of a request, member by member. -/
theorem marshal_request_shape (ev ch : GoString) :
    Marshal [(ascii "event", GoValue.str ev), (ascii "data", GoValue.mapSS [(ascii "channel", ch)])]
      = 0x7B :: (appendString (utf8Text (ascii "data")) ++ 0x3A ::
          0x7B :: (appendString (utf8Text (ascii "channel")) ++ 0x3A ::
            (appendString ch ++ 0x7D :: 0x2C ::
              (appendString (utf8Text (ascii "event")) ++ 0x3A :: (appendString ev ++ [0x7D]))))) := by
  have hs : sortByKey [(ascii "event", GoValue.str ev),
      (ascii "data", GoValue.mapSS [(ascii "channel", ch)])]
      = [(ascii "data", GoValue.mapSS [(ascii "channel", ch)]), (ascii "event", GoValue.str ev)] := by
    rfl
  have hs2 : sortByKey [(ascii "channel", ch)] = [(ascii "channel", ch)] := rfl
  have e1 : utf8Text (ascii "data") = ascii "data" := by decide
  have e2 : utf8Text (ascii "channel") = ascii "channel" := by decide
  have e3 : utf8Text (ascii "event") = ascii "event" := by decide
  rw [e1, e2, e3]
  simp only [Marshal, hs, marshalValue, marshalMapSS, hs2, List.map, joinMembers]
  simp only [List.append_assoc, List.singleton_append, List.cons_append, List.nil_append]

/-- Decoding a request whose event name and channel name are valid UTF-8. -/
theorem decode_request (ev ch : List Nat) (hev : ∀ r ∈ ev, ValidRune r)
    (hch : ∀ r ∈ ch, ValidRune r) :
    decode (Marshal [(ascii "event", GoValue.str (utf8Text ev)),
        (ascii "data", GoValue.mapSS [(ascii "channel", utf8Text ch)])])
      = some (JSON.obj [(ascii "data", JSON.obj [(ascii "channel", JSON.str (utf8Text ch))]),
          (ascii "event", JSON.str (utf8Text ev))]) := by
  have kd : ∀ r ∈ ascii "data", ValidRune r := by decide
  have kc : ∀ r ∈ ascii "channel", ValidRune r := by decide
  have ke : ∀ r ∈ ascii "event", ValidRune r := by decide
  have e1 : utf8Text (ascii "data") = ascii "data" := by decide
  have e2 : utf8Text (ascii "channel") = ascii "channel" := by decide
  have e3 : utf8Text (ascii "event") = ascii "event" := by decide
  have hmax : maxNestingDepth = 9998 + 1 + 1 := by decide
  have hsp : ∀ t : List Nat, skipSpace (0x7B :: t) = 0x7B :: t := by
    intro t
    simp [skipSpace, isSpace]
  rw [marshal_request_shape]
  unfold decode
  rw [hsp, hmax]
  -- the inner object: one member
  have inner : ∀ more : List Nat, parseValue (9998 + 1)
      (0x7B :: (appendString (utf8Text (ascii "channel")) ++ 0x3A ::
            (appendString (utf8Text ch) ++ 0x7D :: more)))
      = some (JSON.obj [(utf8Text (ascii "channel"), JSON.str (utf8Text ch))], more) := by
    intro more
    rw [parseValue_object_quoted]
    obtain ⟨f, hf⟩ := quoted_length (utf8Text (ascii "channel"))
      (0x3A :: (appendString (utf8Text ch) ++ 0x7D :: more))
    rw [hf, parseMembers_last _ _ kc (f + 1) _ _ _ (skipSpace_quoted _ _)
      (parseValue_string ch hch 9998 _)]
    rfl
  -- the outer object: two members
  rw [parseValue_object_quoted]
  obtain ⟨f, hf⟩ := quoted_length (utf8Text (ascii "data"))
    (0x3A :: 0x7B :: (appendString (utf8Text (ascii "channel")) ++ 0x3A ::
      (appendString (utf8Text ch) ++ 0x7D :: 0x2C ::
        (appendString (utf8Text (ascii "event")) ++ 0x3A ::
          (appendString (utf8Text ev) ++ [0x7D])))))
  rw [hf, parseMembers_more _ _ kd (f + 1) _ _ _ _ _ (hsp _) (inner _) (skipSpace_quoted _ _)
    (parseMembers_last _ _ ke f _ _ _ (skipSpace_quoted _ _)
      (parseValue_string ev hev (9998 + 1) _))]
  rw [e1, e2, e3]
  simp [skipSpace]

/-! ## The handler map -/

/-- Reading a map after an assignment. -/
theorem mapGet_mapSet (m : List (GoString × ChanRef)) (k k' : GoString) (v : ChanRef) :
    mapGet (mapSet m k v) k' = if k = k' then v else mapGet m k' := by
  induction m with
  | nil => simp [mapSet, mapGet]
  | cons e rest ih =>
    by_cases h : e.1 = k
    · by_cases h' : k = k'
      · simp [mapSet, mapGet, h, h']
      · have : e.1 ≠ k' := by rw [h]; exact h'
        simp [mapSet, mapGet, h, h', this]
    · by_cases h' : e.1 = k'
      · have h1 : k ≠ k' := by rw [← h']; exact fun x => h x.symm
        have h2 : ¬ k' = k := fun x => h1 x.symm
        simp [mapSet, mapGet, h', h1, h2]
      · simp [mapSet, mapGet, h, h', ih]

/-- The keys of a map after an assignment. -/
theorem mapSet_keys (m : List (GoString × ChanRef)) (k : GoString) (v : ChanRef) :
    (mapSet m k v).map Prod.fst
      = if k ∈ m.map Prod.fst then m.map Prod.fst else m.map Prod.fst ++ [k] := by
  induction m with
  | nil => simp [mapSet]
  | cons e rest ih =>
    by_cases h : e.1 = k
    · simp [mapSet, h]
    · have h' : k ≠ e.1 := fun x => h x.symm
      simp only [mapSet, h, if_false, List.map_cons, ih, List.mem_cons, h', false_or]
      split_ifs <;> simp

/-- An assignment keeps the keys distinct. -/
theorem mapSet_keys_nodup (m : List (GoString × ChanRef)) (k : GoString) (v : ChanRef)
    (h : (m.map Prod.fst).Nodup) : ((mapSet m k v).map Prod.fst).Nodup := by
  rw [mapSet_keys]
  split_ifs with hk
  · exact h
  · exact List.Nodup.append h (List.nodup_singleton k) (by simpa using hk)

/-- The keys after an assignment: the old ones and the assigned one. -/
theorem mapSet_keys_mem (m : List (GoString × ChanRef)) (k x : GoString) (v : ChanRef) :
    x ∈ (mapSet m k v).map Prod.fst ↔ x ∈ m.map Prod.fst ∨ x = k := by
  rw [mapSet_keys]
  split_ifs with hk
  · constructor
    · exact Or.inl
    · rintro (h | h)
      · exact h
      · rw [h]; exact hk
  · simp

/-! ## Sequences of registrations -/

/-- The first registration, then the others. -/
theorem registerAll_cons (rt : Runtime) (e : GoString × Nat) (regs : List (GoString × Nat)) :
    registerAll rt (e :: regs) = registerAll (On rt e.1 e.2) regs := rfl

/-- One channel is made per registration. -/
theorem registerAll_nextChan (regs : List (GoString × Nat)) :
    ∀ rt : Runtime, (registerAll rt regs).nextChan = rt.nextChan + regs.length := by
  induction regs with
  | nil => intro rt; rfl
  | cons e regs ih =>
    intro rt
    rw [registerAll_cons, ih]
    simp [On]
    omega

/-- The event names of the delivery loops: one more per registration, in order. -/
theorem registerAll_events (regs : List (GoString × Nat)) :
    ∀ rt : Runtime, (registerAll rt regs).loops.map (fun l => l.event)
      = rt.loops.map (fun l => l.event) ++ regs.map Prod.fst := by
  induction regs with
  | nil => intro rt; simp [registerAll]
  | cons e regs ih =>
    intro rt
    rw [registerAll_cons, ih]
    simp [On]

/-- The channels of the delivery loops: the channels made, in order. -/
theorem registerAll_channels (regs : List (GoString × Nat)) :
    ∀ rt : Runtime, (registerAll rt regs).loops.map (fun l => l.channel)
      = rt.loops.map (fun l => l.channel) ++ List.range' rt.nextChan regs.length := by
  induction regs with
  | nil => intro rt; simp [registerAll]
  | cons e regs ih =>
    intro rt
    rw [registerAll_cons, ih]
    simp [On, List.range'_succ]

/-- The keys of the registry stay distinct and are the names registered. -/
theorem registerAll_keys (regs : List (GoString × Nat)) :
    ∀ rt : Runtime, (rt.client.handlers.map Prod.fst).Nodup →
      ((registerAll rt regs).client.handlers.map Prod.fst).Nodup ∧
      ∀ x, x ∈ (registerAll rt regs).client.handlers.map Prod.fst
        ↔ x ∈ rt.client.handlers.map Prod.fst ∨ x ∈ regs.map Prod.fst := by
  induction regs with
  | nil => intro rt h; simp [registerAll, h]
  | cons e regs ih =>
    intro rt h
    rw [registerAll_cons]
    have h1 : ((On rt e.1 e.2).client.handlers.map Prod.fst).Nodup :=
      mapSet_keys_nodup _ _ _ h
    obtain ⟨a, b⟩ := ih (On rt e.1 e.2) h1
    refine ⟨a, fun x => ?_⟩
    rw [b x]
    have : x ∈ (On rt e.1 e.2).client.handlers.map Prod.fst
        ↔ x ∈ rt.client.handlers.map Prod.fst ∨ x = e.1 := mapSet_keys_mem _ _ _ _
    rw [this]
    simp only [List.map_cons, List.mem_cons]
    tauto

/-- The method `On` keeps the registry well formed: its channel is new. -/
theorem On_RegistryOK (rt : Runtime) (event : GoString) (handler : Nat) (h : RegistryOK rt) :
    RegistryOK (On rt event handler) := by
  obtain ⟨h1, h2⟩ := h
  constructor
  · intro e ch hg
    simp only [On, mapGet_mapSet] at hg ⊢
    split_ifs at hg with he
    · simp only [Option.some.injEq] at hg
      omega
    · have := h1 e ch hg
      omega
  · intro e e' ch hg hg'
    simp only [On, mapGet_mapSet] at hg hg'
    split_ifs at hg hg' with he he' he'
    · rw [← he, ← he']
    · simp only [Option.some.injEq] at hg
      have := h1 e' ch hg'
      omega
    · simp only [Option.some.injEq] at hg'
      have := h1 e ch hg
      omega
    · exact h2 e e' ch hg hg'

/-- Registrations keep the registry well formed. -/
theorem registerAll_RegistryOK (regs : List (GoString × Nat)) :
    ∀ rt : Runtime, RegistryOK rt → RegistryOK (registerAll rt regs) := by
  induction regs with
  | nil => intro rt h; exact h
  | cons e regs ih =>
    intro rt h
    rw [registerAll_cons]
    exact ih _ (On_RegistryOK rt e.1 e.2 h)

/-- What `Connect` returns: no handler, no loop, an empty queue of capacity 256. -/
theorem Connect_fresh (key : GoString) (dial : GoString → Option Nat) (rt : Runtime)
    (h : Connect key dial = Result.ok rt) :
    rt.client.handlers = [] ∧ rt.loops = [] ∧ rt.nextChan = 0 ∧ rt.client.Key = key
      ∧ rt.client.send = Chan.make 256 := by
  unfold Connect at h
  split at h
  · cases h
  · cases h
    simp

/-! ## The inbound dispatcher -/

/-- Reading an absent key gives the nil channel. -/
theorem mapGet_none_of_absent (m : List (GoString × ChanRef)) (key : GoString)
    (h : ∀ e ∈ m, e.1 ≠ key) : mapGet m key = none := by
  induction m with
  | nil => rfl
  | cons e rest ih =>
    have h1 : e.1 ≠ key := h e (List.mem_cons_self _ _)
    have h2 : ∀ x ∈ rest, x.1 ≠ key := fun x hx => h x (List.mem_cons_of_mem _ hx)
    simp [mapGet, h1, ih h2]

/-- An empty registry is well formed. -/
theorem RegistryOK_fresh (rt : Runtime) (h : rt.client.handlers = []) : RegistryOK rt := by
  constructor
  · intro e ch hg
    rw [h] at hg
    cases hg
  · intro e e' ch hg
    rw [h] at hg
    cases hg

/-- The method `handleEvent` does not change the client. -/
theorem handleEvent_client (c : Client) (payload : List Nat) : (handleEvent c payload).1 = c := by
  unfold handleEvent
  simp only
  split <;> rfl

/-- What `handleEvent` sends: the data of the envelope, on the channel registered for
its event name, if that channel is not nil. -/
theorem handleEvent_sends (c : Client) (payload : List Nat) :
    (handleEvent c payload).2
      = (mapGet c.handlers (decodeEvent payload).Event).toList.map
          fun ch => (ch, (decodeEvent payload).Data) := by
  unfold handleEvent decodeEvent zeroEvent
  simp only
  split <;> rename_i h <;> simp [h]

/-- A sequence of frames does not change the client. -/
theorem handleEvents_client (c : Client) (frames : List (List Nat)) :
    (handleEvents c frames).1 = c := by
  induction frames with
  | nil => rfl
  | cons p rest ih => simp only [handleEvents, handleEvent_client, ih]

/-- What a sequence of frames sends, frame by frame. -/
theorem handleEvents_sends (c : Client) (frames : List (List Nat)) :
    (handleEvents c frames).2
      = frames.flatMap fun f => (mapGet c.handlers (decodeEvent f).Event).toList.map
          fun ch => (ch, (decodeEvent f).Data) := by
  induction frames with
  | nil => rfl
  | cons p rest ih =>
    simp only [handleEvents, handleEvent_client, ih, List.flatMap_cons, handleEvent_sends]

/-- What a sequence of frames sends on the channel of one event name. -/
theorem handleEvents_channel (c : Client) (frames : List (List Nat)) (E : GoString) (ch : Nat)
    (hreg : mapGet c.handlers E = some ch)
    (hinj : ∀ E', mapGet c.handlers E' = some ch → E' = E) :
    ((handleEvents c frames).2.filter fun s => s.1 = ch).map Prod.snd
      = ((frames.map decodeEvent).filter fun m => m.Event = E).map fun m => m.Data := by
  induction frames with
  | nil => rfl
  | cons p rest ih =>
    simp only [handleEvents, handleEvent_client, List.filter_append, List.map_append, ih,
      handleEvent_sends, List.map_cons]
    by_cases he : (decodeEvent p).Event = E
    · simp [he, hreg]
    · cases hg : mapGet c.handlers (decodeEvent p).Event with
      | none => simp [he]
      | some ch' =>
        have : ch' ≠ ch := fun x => he (hinj _ (x ▸ hg))
        simp [he, this]

/-- Counting by a field is counting in the list of that field. -/
theorem length_filter_map {α β : Type} [DecidableEq β] (f : α → β) (l : List α) (a : β) :
    (l.filter fun x => f x = a).length = ((l.map f).filter fun y => y = a).length := by
  simp [List.filter_map, Function.comp_def]

/-- An element occurs once in a list without duplicates, if at all. -/
theorem length_filter_eq_of_nodup {α : Type} [DecidableEq α] (l : List α) (h : l.Nodup) (a : α) :
    (l.filter fun x => x = a).length = if a ∈ l then 1 else 0 := by
  induction l with
  | nil => simp
  | cons x rest ih =>
    rw [List.nodup_cons] at h
    by_cases hx : x = a
    · subst hx
      have : (rest.filter fun y => y = x) = [] := by
        rw [List.filter_eq_nil_iff]
        intro y hy
        simp only [decide_eq_true_eq]
        rintro rfl
        exact h.1 hy
      simp [this]
    · have hx' : ¬ a = x := fun e => hx e.symm
      simp [hx, hx', ih h.2]

/-- The last registration, after the others. -/
theorem registerAll_append (rt : Runtime) (regs : List (GoString × Nat)) (e : GoString × Nat) :
    registerAll rt (regs ++ [e]) = On (registerAll rt regs) e.1 e.2 := by
  simp [registerAll, List.foldl_append]

/-- The callback registered for a name after one more registration. -/
theorem registeredHandler_append (regs : List (GoString × Nat)) (e : GoString × Nat)
    (E : GoString) :
    registeredHandler (regs ++ [e]) E
      = if e.1 = E then some e.2 else registeredHandler regs E := by
  simp [registeredHandler, List.foldl_append]

/-- After any registrations, a name with a registered callback has a delivery channel in
the registry, and the loop started for that name, on that channel, with that
callback, is running. -/
theorem registerAll_loop (rt : Runtime) (regs : List (GoString × Nat)) :
    ∀ (E : GoString) (h : Nat), registeredHandler regs E = some h →
      ∃ ch, mapGet (registerAll rt regs).client.handlers E = some ch
        ∧ ({ event := E, channel := ch, handler := h } : DeliveryLoop)
            ∈ (registerAll rt regs).loops := by
  induction regs using List.reverseRecOn with
  | nil =>
    intro E h hh
    simp [registeredHandler] at hh
  | append_singleton regs e ih =>
    intro E h hh
    rw [registeredHandler_append] at hh
    rw [registerAll_append]
    by_cases he : e.1 = E
    · rw [if_pos he] at hh
      simp only [Option.some.injEq] at hh
      refine ⟨(registerAll rt regs).nextChan, ?_, ?_⟩
      · simp [On, mapGet_mapSet, he]
      · simp [On, he, hh]
    · rw [if_neg he] at hh
      obtain ⟨ch, h1, h2⟩ := ih E h hh
      refine ⟨ch, ?_, ?_⟩
      · simp [On, mapGet_mapSet, he, h1]
      · simp [On, h2]

/-- A list of length one is the singleton of any of its members. -/
theorem eq_singleton_of_length_one {α : Type} (l : List α) (x : α) (hl : l.length = 1)
    (hx : x ∈ l) : l = [x] := by
  match l, hl, hx with
  | [y], _, hx =>
    simp only [List.mem_singleton] at hx
    rw [hx]

/-- On a client returned by `Connect`, after any registrations, each channel made is
served by exactly one delivery loop. -/
theorem registerAll_one_loop (key : GoString) (dial : GoString → Option Nat) (rt0 : Runtime)
    (regs : List (GoString × Nat)) (hconn : Connect key dial = Result.ok rt0) (ch : Nat)
    (hch : ch < (registerAll rt0 regs).nextChan) :
    ((registerAll rt0 regs).loops.filter fun l => l.channel = ch).length = 1 := by
  obtain ⟨_, h2, h3, _, _⟩ := Connect_fresh key dial rt0 hconn
  have hchan := registerAll_channels regs rt0
  have hn := registerAll_nextChan regs rt0
  rw [h2, h3] at hchan
  rw [h3] at hn
  simp only [List.map_nil, List.nil_append] at hchan
  rw [length_filter_map (fun l : DeliveryLoop => l.channel), hchan,
    length_filter_eq_of_nodup _ (List.nodup_range' _ _)]
  have : ch ∈ List.range' 0 regs.length := by
    simp only [List.mem_range'_1]
    omega
  simp [this]

/-- C3. On a client returned by `Connect`, after any sequence of `On` registrations:
for every sequence of inbound frames that each decode to an envelope without
error, and every event name `E` with a registered callback `h` (the one given by
the latest `On` for `E`): the registry holds a delivery channel `ch` for `E`; the
only delivery loop that serves `ch` is the one started for `E` with callback `h`;
the values `handleEvent` sends on `ch` are exactly the `Data` fields of the frames
whose `Event` is `E`, in arrival order, each once; that loop receives exactly this
sequence and its calls are `h` on each of these values, in this order; `ch` is the
channel of no other event name, and each frame's value goes only to the channel
registered for that frame's own event name, so nothing else reaches `ch` and
nothing of `E` reaches another channel; and the client is left unchanged. -/
theorem handleEvents_in_order (key : GoString) (dial : GoString → Option Nat) (rt0 : Runtime)
    (regs : List (GoString × Nat)) (frames : List (List Nat)) (E : GoString) (h : Nat)
    (hconn : Connect key dial = Result.ok rt0)
    (hdec : ∀ f ∈ frames, (Unmarshal f zeroEvent).2 = none)
    (hreg : registeredHandler regs E = some h) :
    (∀ f ∈ frames, Unmarshal f zeroEvent = (decodeEvent f, none))
      ∧ (∃ ch, mapGet (registerAll rt0 regs).client.handlers E = some ch
          ∧ ((registerAll rt0 regs).loops.filter fun l => l.channel = ch)
              = [{ event := E, channel := ch, handler := h }]
          ∧ ((handleEvents (registerAll rt0 regs).client frames).2.filter
                fun s => s.1 = ch).map Prod.snd
              = ((frames.map decodeEvent).filter fun m => m.Event = E).map (fun m => m.Data)
          ∧ received { event := E, channel := ch, handler := h }
                (handleEvents (registerAll rt0 regs).client frames).2
              = ((frames.map decodeEvent).filter fun m => m.Event = E).map (fun m => m.Data)
          ∧ loopCalls { event := E, channel := ch, handler := h }
                (handleEvents (registerAll rt0 regs).client frames).2
              = ((frames.map decodeEvent).filter fun m => m.Event = E).map
                  (fun m => (h, m.Data))
          ∧ (∀ E', E' ≠ E → mapGet (registerAll rt0 regs).client.handlers E' ≠ some ch))
      ∧ (handleEvents (registerAll rt0 regs).client frames).2
          = (frames.flatMap fun f =>
              (mapGet (registerAll rt0 regs).client.handlers (decodeEvent f).Event).toList.map
                fun ch' => (ch', (decodeEvent f).Data))
      ∧ (handleEvents (registerAll rt0 regs).client frames).1 = (registerAll rt0 regs).client := by
  have hok := registerAll_RegistryOK regs rt0
    (RegistryOK_fresh rt0 (Connect_fresh key dial rt0 hconn).1)
  obtain ⟨ch, hget, hmem⟩ := registerAll_loop rt0 regs E h hreg
  have hinj : ∀ E', mapGet (registerAll rt0 regs).client.handlers E' = some ch → E' = E :=
    fun E' h' => hok.2 E' E ch h' hget
  have hone := registerAll_one_loop key dial rt0 regs hconn ch (hok.1 E ch hget)
  have hfilter : ((registerAll rt0 regs).loops.filter fun l => l.channel = ch)
      = [{ event := E, channel := ch, handler := h }] :=
    eq_singleton_of_length_one _ _ hone (List.mem_filter.mpr ⟨hmem, by simp⟩)
  have hsent := handleEvents_channel (registerAll rt0 regs).client frames E ch hget hinj
  have hrec : received { event := E, channel := ch, handler := h }
        (handleEvents (registerAll rt0 regs).client frames).2
      = ((frames.map decodeEvent).filter fun m => m.Event = E).map (fun m => m.Data) := by
    unfold received
    exact hsent
  refine ⟨fun f hf => Prod.ext rfl (hdec f hf),
    ⟨ch, hget, hfilter, hsent, hrec, ?_, fun E' hne h' => hne (hinj E' h')⟩,
    handleEvents_sends _ _, handleEvents_client _ _⟩
  unfold loopCalls
  rw [hrec, List.map_map]
  rfl

/-- C3, at a concrete input: callbacks 7 for `test` and 8 for `other`, and four frames,
for `test`, `other`, `test`, `test` in this order, the first with the string of
the object x = 1 as data. The only loop on the channel of `test` is the one with
callback 7, and its calls are callback 7 on the three values of the `test`
frames, in arrival order; the value of the `other` frame is not among them. -/
theorem handleEvents_in_order_witness :
    ((registerAll exampleRuntime [(ascii "test", 7), (ascii "other", 8)]).loops.filter
        fun l => l.channel = 0) = [{ event := ascii "test", channel := 0, handler := 7 }]
      ∧ loopCalls { event := ascii "test", channel := 0, handler := 7 }
          (handleEvents (registerAll exampleRuntime [(ascii "test", 7), (ascii "other", 8)]).client
            [ascii "\x7b\"event\":\"test\",\"data\":\"\x7b\\\"x\\\":1\x7d\"\x7d",
              ascii "\x7b\"event\":\"other\",\"data\":\"a\"\x7d",
              ascii "\x7b\"event\":\"test\",\"data\":\"second\"\x7d",
              ascii "\x7b\"event\":\"test\",\"data\":\"third\"\x7d"]).2
        = [(7, ascii "\x7b\"x\":1\x7d"), (7, ascii "second"), (7, ascii "third")] := by
  obtain ⟨ch, hget, hfilter, _, _, hcalls, _⟩ :=
    (handleEvents_in_order (ascii "abc123") (fun _ => some 1) exampleRuntime
      [(ascii "test", 7), (ascii "other", 8)]
      [ascii "\x7b\"event\":\"test\",\"data\":\"\x7b\\\"x\\\":1\x7d\"\x7d",
        ascii "\x7b\"event\":\"other\",\"data\":\"a\"\x7d",
        ascii "\x7b\"event\":\"test\",\"data\":\"second\"\x7d",
        ascii "\x7b\"event\":\"test\",\"data\":\"third\"\x7d"]
      (ascii "test") 7 rfl (by decide) (by decide)).2.1
  have h0 : ch = 0 := by
    have e : mapGet (registerAll exampleRuntime
        [(ascii "test", 7), (ascii "other", 8)]).client.handlers (ascii "test") = some 0 := by
      rfl
    rw [e] at hget
    exact (Option.some.inj hget).symm
  subst h0
  refine ⟨hfilter, ?_⟩
  rw [hcalls]
  decide

/-- C5. For every inbound frame that decodes to an envelope without error and whose
event name has no entry in the handler registry, `handleEvent` sends nothing on
any delivery channel and returns the client (key, connection, registry, outbound
queue) unchanged; there is no error to report, the decode having returned none. -/
theorem handleEvent_unregistered (c : Client) (payload : List Nat)
    (hdec : (Unmarshal payload zeroEvent).2 = none)
    (hno : ∀ e ∈ c.handlers, e.1 ≠ (decodeEvent payload).Event) :
    handleEvent c payload = (c, [])
      ∧ Unmarshal payload zeroEvent = (decodeEvent payload, none) := by
  refine ⟨?_, Prod.ext rfl hdec⟩
  have h := mapGet_none_of_absent c.handlers _ hno
  unfold decodeEvent zeroEvent at h
  unfold handleEvent
  simp only [h]

/-- C5, at a concrete input: a frame for the event `other` while only `test` has a
handler. -/
theorem handleEvent_unregistered_witness :
    handleEvent (registerAll exampleRuntime [(ascii "test", 7)]).client
        (ascii "\x7b\"event\":\"other\",\"data\":\"1\"\x7d")
      = ((registerAll exampleRuntime [(ascii "test", 7)]).client, []) :=
  (handleEvent_unregistered _ _ (by decide) (by decide)).1

/-! ## Decoding failures -/

/-- Decoding members never reports a syntax error. -/
theorem foldl_unmarshalMember_error (ms : List (GoString × JSON)) :
    ∀ st : Event × Option UnmarshalError, st.2 ≠ some UnmarshalError.invalidJSON →
      (ms.foldl unmarshalMember st).2 ≠ some UnmarshalError.invalidJSON := by
  induction ms with
  | nil => intro st h; exact h
  | cons kv rest ih =>
    intro st h
    apply ih
    unfold unmarshalMember saveError
    split_ifs <;> (try exact h) <;> (split <;> simp_all)

/-- On a syntax error the input is not valid JSON and the target is not touched. -/
theorem Unmarshal_invalid (payload : List Nat) (m : Event)
    (h : (Unmarshal payload m).2 = some UnmarshalError.invalidJSON) :
    decode payload = none ∧ (Unmarshal payload m).1 = m := by
  unfold Unmarshal at h ⊢
  split at h
  · rename_i hd
    simp [hd]
  · exact absurd h (foldl_unmarshalMember_error _ _ (by simp))
  · simp at h
  · simp at h

/-- C4, amended. `handleEvent` drops the error of `json.Unmarshal` and dispatches on
whatever the failed decode left in the envelope. For every handler registry and
every payload whose decoding fails: the failure is a syntax error or a type error;
on a syntax error the envelope is untouched, so the empty string is sent to the
channel registered under the empty event name if there is one, and nothing is
sent otherwise; in every case at most one value is sent, to the channel registered
for the event name left in the envelope, and nothing is sent when that name has no
handler; the client is unchanged. -/
theorem handleEvent_decode_failure (c : Client) (payload : List Nat)
    (herr : (Unmarshal payload zeroEvent).2 ≠ none) :
    ((Unmarshal payload zeroEvent).2 = some UnmarshalError.invalidJSON
        ∨ (Unmarshal payload zeroEvent).2 = some UnmarshalError.wrongType)
      ∧ ((Unmarshal payload zeroEvent).2 = some UnmarshalError.invalidJSON →
        (handleEvent c payload).2 = (mapGet c.handlers []).toList.map fun ch => (ch, []))
      ∧ (mapGet c.handlers (decodeEvent payload).Event = none → (handleEvent c payload).2 = [])
      ∧ (handleEvent c payload).2
          = ((mapGet c.handlers (decodeEvent payload).Event).toList.map
              fun ch => (ch, (decodeEvent payload).Data))
      ∧ (handleEvent c payload).1 = c := by
  refine ⟨?_, ?_, ?_, handleEvent_sends c payload, handleEvent_client c payload⟩
  · cases hu : (Unmarshal payload zeroEvent).2 with
    | none => exact absurd hu herr
    | some x => cases x <;> simp
  · intro h
    have h2 := (Unmarshal_invalid payload zeroEvent h).2
    rw [handleEvent_sends]
    unfold decodeEvent
    rw [h2]
    rfl
  · intro h
    rw [handleEvent_sends, h]
    rfl

/-- C4, counterexample. The payload `xyz` is not JSON, and with a handler registered
under the empty event name `handleEvent` sends it the empty string; the object
with event `test` and an object as data fails to decode with a type error, and
with a handler for `test` registered `handleEvent` sends it the empty string. -/
theorem handleEvent_decode_failure_cex :
    (Unmarshal (ascii "xyz") zeroEvent).2 = some UnmarshalError.invalidJSON
      ∧ (handleEvent (registerAll exampleRuntime [(ascii "", 7)]).client (ascii "xyz")).2
          = [(0, ascii "")]
      ∧ (Unmarshal (ascii "\x7b\"event\":\"test\",\"data\":\x7b\"x\":1\x7d\x7d") zeroEvent).2
          = some UnmarshalError.wrongType
      ∧ (handleEvent (registerAll exampleRuntime [(ascii "test", 7)]).client
            (ascii "\x7b\"event\":\"test\",\"data\":\x7b\"x\":1\x7d\x7d")).2
          = [(0, ascii "")] := by
  decide

/-- C4 amended, at a concrete input: the payload `xyz` with only `test` registered
reaches no handler. -/
theorem handleEvent_decode_failure_witness :
    (handleEvent (registerAll exampleRuntime [(ascii "test", 7)]).client (ascii "xyz")).2 = [] :=
  (handleEvent_decode_failure (registerAll exampleRuntime [(ascii "test", 7)]).client
    (ascii "xyz") (by decide)).2.2.1 (by decide)

/-- C1, counterexample. For the channel `my-channel` the message `Subscribe` puts on
the outbound queue is not the double-encoded envelope with `event` first and
`data` a string. -/
theorem Subscribe_message_cex :
    (Subscribe exampleClient (ascii "my-channel")).send.queue
      ≠ exampleClient.send.queue ++
        [ascii "\x7b\"event\":\"pusher:subscribe\",\"data\":\"\x7b\\\"channel\\\":\\\"my-channel\\\"\x7d\"\x7d"] := by
  decide

/-! ## The outbound requests -/

/-- The bytes of a request. -/
theorem marshal_request (ev ch : GoString) :
    Marshal [(ascii "event", GoValue.str ev), (ascii "data", GoValue.mapSS [(ascii "channel", ch)])]
      = ascii "\x7b\"data\":\x7b\"channel\":" ++ appendString ch ++ ascii "\x7d,\"event\":"
          ++ appendString ev ++ ascii "\x7d" := by
  have h1 : appendString (ascii "data") = ascii "\"data\"" := by decide
  have h2 : appendString (ascii "event") = ascii "\"event\"" := by decide
  have h3 : appendString (ascii "channel") = ascii "\"channel\"" := by decide
  have hs : sortByKey [(ascii "event", GoValue.str ev),
      (ascii "data", GoValue.mapSS [(ascii "channel", ch)])]
      = [(ascii "data", GoValue.mapSS [(ascii "channel", ch)]), (ascii "event", GoValue.str ev)] := by
    rfl
  have hs2 : sortByKey [(ascii "channel", ch)] = [(ascii "channel", ch)] := rfl
  simp only [Marshal, hs, marshalValue, marshalMapSS, hs2, List.map, joinMembers, h1, h2, h3]
  simp [ascii]

/-- C1, amended. For every channel name, `Subscribe` appends exactly one message to
the outbound queue and changes nothing else of the client; the message is the
JSON object whose first member is `data`, the nested object with the single
member `channel` holding the channel name as a JSON string, and whose second
member is `event` with the string `pusher:subscribe` (the encoder sorts the map
keys and `data` is an object, not a string). For `my-channel` the bytes are as
displayed in the second conjunct. -/
theorem Subscribe_message (c : Client) (ch : GoString) :
    (Subscribe c ch).send.queue
        = c.send.queue ++ [ascii "\x7b\"data\":\x7b\"channel\":" ++ appendString ch
            ++ ascii "\x7d,\"event\":\"pusher:subscribe\"\x7d"]
      ∧ (Subscribe c (ascii "my-channel")).send.queue
        = c.send.queue ++
          [ascii "\x7b\"data\":\x7b\"channel\":\"my-channel\"\x7d,\"event\":\"pusher:subscribe\"\x7d"]
      ∧ (Subscribe c ch).send.cap = c.send.cap
      ∧ (Subscribe c ch).Key = c.Key ∧ (Subscribe c ch).ws = c.ws
      ∧ (Subscribe c ch).handlers = c.handlers := by
  have h : ∀ x : GoString, (Subscribe c x).send.queue
      = c.send.queue ++ [ascii "\x7b\"data\":\x7b\"channel\":" ++ appendString x
          ++ ascii "\x7d,\"event\":\"pusher:subscribe\"\x7d"] := by
    intro x
    have e : appendString (ascii "pusher:subscribe") = ascii "\"pusher:subscribe\"" := by decide
    have e2 : ascii "\x7d,\"event\":" ++ ascii "\"pusher:subscribe\"" ++ ascii "\x7d"
        = ascii "\x7d,\"event\":\"pusher:subscribe\"\x7d" := by decide
    simp only [Subscribe, Chan.send, marshal_request, e]
    rw [List.append_assoc (_ ++ appendString x), List.append_assoc (_ ++ appendString x), e2]
  refine ⟨h ch, ?_, rfl, rfl, rfl, rfl⟩
  rw [h]
  have e3 : ascii "\x7b\"data\":\x7b\"channel\":" ++ appendString (ascii "my-channel")
        ++ ascii "\x7d,\"event\":\"pusher:subscribe\"\x7d"
      = ascii "\x7b\"data\":\x7b\"channel\":\"my-channel\"\x7d,\"event\":\"pusher:subscribe\"\x7d" := by
    decide
  rw [e3]

/-- C2, counterexample. A Go string may hold bytes that are not UTF-8: for the channel
name made of the single byte 0xFF the decoded request does not carry the channel
name unchanged (the encoder has replaced the byte by U+FFFD). -/
theorem request_roundtrip_cex :
    (Subscribe exampleClient [0xFF]).send.queue.map decode
      ≠ [some (JSON.obj [(ascii "data", JSON.obj [(ascii "channel", JSON.str [0xFF])]),
          (ascii "event", JSON.str (ascii "pusher:subscribe"))])] := by
  have h : (Subscribe exampleClient [0xFF]).send.queue.map decode
      = [some (JSON.obj [(ascii "data", JSON.obj [(ascii "channel", JSON.str [0xEF, 0xBF, 0xBD])]),
          (ascii "event", JSON.str (ascii "pusher:subscribe"))])] := by rfl
  rw [h]
  simp

/-- C2, amended. For every channel name that is valid UTF-8 (the UTF-8 text of a
sequence of Unicode scalar values), decoding as JSON the message enqueued by
`Subscribe` yields exactly the object with the two members `data`, the object with
the single member `channel` holding the channel name unchanged, and `event`, the
string `pusher:subscribe`; for `Unsubscribe` the same with `pusher:unsubscribe`. -/
theorem request_roundtrip (c : Client) (rs : List Nat) (hv : ∀ r ∈ rs, ValidRune r) :
    (Subscribe c (utf8Text rs)).send.queue.map decode
        = c.send.queue.map decode ++
          [some (JSON.obj [(ascii "data", JSON.obj [(ascii "channel", JSON.str (utf8Text rs))]),
            (ascii "event", JSON.str (ascii "pusher:subscribe"))])]
      ∧ (Unsubscribe c (utf8Text rs)).send.queue.map decode
        = c.send.queue.map decode ++
          [some (JSON.obj [(ascii "data", JSON.obj [(ascii "channel", JSON.str (utf8Text rs))]),
            (ascii "event", JSON.str (ascii "pusher:unsubscribe"))])] := by
  have e1 : ascii "pusher:subscribe" = utf8Text (ascii "pusher:subscribe") := by decide
  have e2 : ascii "pusher:unsubscribe" = utf8Text (ascii "pusher:unsubscribe") := by decide
  have v1 : ∀ r ∈ ascii "pusher:subscribe", ValidRune r := by decide
  have v2 : ∀ r ∈ ascii "pusher:unsubscribe", ValidRune r := by decide
  constructor
  · simp only [Subscribe, Chan.send, List.map_append, List.map_cons, List.map_nil]
    rw [e1, decode_request _ _ v1 hv]
  · simp only [Unsubscribe, Chan.send, List.map_append, List.map_cons, List.map_nil]
    rw [e2, decode_request _ _ v2 hv]

/-- C2 amended, at a concrete input: a channel name with ASCII letters, a two-byte
rune, a quote and a four-byte rune. -/
theorem request_roundtrip_witness :
    (Subscribe exampleClient (utf8Text [0x66, 0x6F, 0x6F, 0xE9, 0x22, 0x1F600])).send.queue.map decode
        = exampleClient.send.queue.map decode ++
          [some (JSON.obj [(ascii "data", JSON.obj [(ascii "channel",
              JSON.str (utf8Text [0x66, 0x6F, 0x6F, 0xE9, 0x22, 0x1F600]))]),
            (ascii "event", JSON.str (ascii "pusher:subscribe"))])] :=
  (request_roundtrip exampleClient [0x66, 0x6F, 0x6F, 0xE9, 0x22, 0x1F600] (by decide)).1

/-! ## The handshake URL -/

/-- The query string of the handshake. -/
theorem encode_params :
    Values.Encode (Values.Set (Values.Set (Values.Set [] (ascii "client") clientName)
      (ascii "version") version) (ascii "protocol") protocol)
      = ascii "client=Go-pusher.go&protocol=7&version=0.0.1" := by decide

/-- C7, amended. For every application key and every answer of the dialer, the URL
`startWebSocket` dials is `pusherURL`, the key, a question mark, and the three
fixed query parameters sorted by name: client, protocol, version. -/
theorem startWebSocket_url (key : GoString) (dial : GoString → Option Nat) :
    (startWebSocket key dial).1
      = ascii "ws://ws.pusherapp.com/app/" ++ key
          ++ ascii "?client=Go-pusher.go&protocol=7&version=0.0.1" := by
  have h : (startWebSocket key dial).1 = handshakeURL key := by
    simp only [startWebSocket]
    split <;> rfl
  rw [h]
  show pusherURL ++ key ++ ascii "?" ++ Values.Encode _ = _
  rw [encode_params, List.append_assoc (pusherURL ++ key)]
  rfl

/-- C7, counterexample. For the key `abc123` the URL dialed is not the one with the
query parameters in the order client, version, protocol. -/
theorem startWebSocket_url_cex :
    (startWebSocket (ascii "abc123") (fun _ => some 1)).1
      ≠ ascii "ws://ws.pusherapp.com/app/" ++ ascii "abc123"
          ++ ascii "?client=Go-pusher.go&version=0.0.1&protocol=7" := by decide

/-! ## The writer -/

/-- The writer after `n` iterations: the calls made, the queue left, the frame type
and connection of each call, and the result of each call. -/
theorem writer_payloads (n : Nat) : ∀ (c : Client) (env : Nat → Int × Bool),
    (writer n c env).1.map (fun w => w.1.payload) = c.send.queue.take n
      ∧ (writer n c env).2.send.queue = c.send.queue.drop n
      ∧ (∀ w ∈ (writer n c env).1, w.1.messageType = TextMessage ∧ w.1.ws = c.ws)
      ∧ (writer n c env).1.map Prod.snd
          = (List.range (min n c.send.queue.length)).map fun i => (env i).2 := by
  induction n with
  | zero => intro c env; simp [writer]
  | succ n ih =>
    intro c env
    cases hq : c.send.queue with
    | nil => simp [writer, Chan.recv, hq]
    | cons m rest =>
      obtain ⟨a, b, d, e⟩ := ih { c with send := { c.send with queue := rest } }
        (fun i => env (i + 1))
      refine ⟨?_, ?_, ?_, ?_⟩
      · simp only [writer, Chan.recv, hq, List.map_cons, List.take_succ_cons, a]
        rfl
      · simp only [writer, Chan.recv, hq, List.drop_succ_cons, b]
      · intro w hw
        simp only [writer, Chan.recv, hq, List.mem_cons] at hw
        rcases hw with rfl | hw
        · exact ⟨rfl, rfl⟩
        · exact d w hw
      · simp only [writer, Chan.recv, hq, List.map_cons, e, List.length_cons,
          Nat.add_min_add_right]
        rw [List.range_succ_eq_map]
        simp [write, Function.comp_def]

/-- C9. For every outbound queue and every pattern of clock readings and write
failures: run for at least as many iterations as there are queued messages, the
writer makes one `WriteMessage` call per message, each a text frame, payloads in
enqueue order; the result of the `i`-th call is the `i`-th answer of the
environment, whatever the earlier ones were; the queue ends empty (nothing is
put back); and after any number `n` of iterations the calls made are the first `n`
messages and the queue holds the others, in order. -/
theorem writer_fifo (c : Client) (env : Nat → Int × Bool) (k : Nat) :
    (writer (c.send.queue.length + k) c env).1.map (fun w => (w.1.messageType, w.1.payload))
        = c.send.queue.map (fun m => (TextMessage, m))
      ∧ (writer (c.send.queue.length + k) c env).1.map Prod.snd
        = (List.range c.send.queue.length).map (fun i => (env i).2)
      ∧ (writer (c.send.queue.length + k) c env).2.send.queue = []
      ∧ (∀ n, (writer n c env).1.map (fun w => w.1.payload) = c.send.queue.take n
          ∧ (writer n c env).2.send.queue = c.send.queue.drop n) := by
  obtain ⟨a, b, d, e⟩ := writer_payloads (c.send.queue.length + k) c env
  refine ⟨?_, ?_, ?_, fun n => ⟨(writer_payloads n c env).1, (writer_payloads n c env).2.1⟩⟩
  · have hp : (writer (c.send.queue.length + k) c env).1.map (fun w => w.1.payload)
        = c.send.queue := by
      rw [a]; simp
    conv_rhs => rw [← hp, List.map_map]
    apply List.map_congr_left
    intro w hw
    simp [(d w hw).1]
  · rw [e]; simp
  · rw [b]; simp

/-! ## The handler registry -/

/-- C10, amended. After every sequence of `On` registrations on a client returned by
`Connect`: there is one delivery loop per call of `On`, so as many loops for an
event name as registrations of that name; the registry has one entry per distinct
name; the channel of every registry entry is served by exactly one loop; and when
no name is registered twice, the number of loops equals the number of entries and
there is at most one loop per event name. -/
theorem On_registry (key : GoString) (dial : GoString → Option Nat) (rt : Runtime)
    (regs : List (GoString × Nat)) (h : Connect key dial = Result.ok rt) :
    (registerAll rt regs).loops.length = regs.length
      ∧ (∀ e, ((registerAll rt regs).loops.filter fun l => l.event = e).length
          = (regs.filter fun r => r.1 = e).length)
      ∧ (registerAll rt regs).client.handlers.length = (regs.map Prod.fst).toFinset.card
      ∧ (∀ e ch, mapGet (registerAll rt regs).client.handlers e = some ch →
          ((registerAll rt regs).loops.filter fun l => l.channel = ch).length = 1)
      ∧ ((regs.map Prod.fst).Nodup →
          (registerAll rt regs).loops.length = (registerAll rt regs).client.handlers.length
          ∧ ∀ e, ((registerAll rt regs).loops.filter fun l => l.event = e).length ≤ 1) := by
  obtain ⟨h1, h2, h3, _, _⟩ := Connect_fresh key dial rt h
  have hev := registerAll_events regs rt
  have hch := registerAll_channels regs rt
  have hk := registerAll_keys regs rt (by rw [h1]; exact List.nodup_nil)
  have hok := registerAll_RegistryOK regs rt (RegistryOK_fresh rt h1)
  have hn := registerAll_nextChan regs rt
  rw [h2] at hev hch
  rw [h3] at hch hn
  simp only [List.map_nil, List.nil_append] at hev hch
  have hlen : (registerAll rt regs).loops.length = regs.length := by
    have := congrArg List.length hev
    simpa using this
  have hcard : (registerAll rt regs).client.handlers.length = (regs.map Prod.fst).toFinset.card := by
    have e1 : ((registerAll rt regs).client.handlers.map Prod.fst).toFinset
        = (regs.map Prod.fst).toFinset := by
      ext x
      simp only [List.mem_toFinset]
      rw [hk.2 x, h1]
      simp
    rw [← e1, List.toFinset_card_of_nodup hk.1, List.length_map]
  have hcount : ∀ e, ((registerAll rt regs).loops.filter fun l => l.event = e).length
      = (regs.filter fun r => r.1 = e).length := by
    intro e
    rw [length_filter_map (fun l : DeliveryLoop => l.event), hev,
      ← length_filter_map (fun r : GoString × Nat => r.1)]
  refine ⟨hlen, hcount, hcard, ?_, ?_⟩
  · intro e ch hg
    rw [length_filter_map (fun l : DeliveryLoop => l.channel), hch,
      length_filter_eq_of_nodup _ (List.nodup_range' _ _)]
    have hlt := hok.1 e ch hg
    rw [hn] at hlt
    have : ch ∈ List.range' 0 regs.length := by
      simp only [List.mem_range'_1]
      omega
    simp [this]
  · intro hnd
    refine ⟨?_, fun e => ?_⟩
    · rw [hlen, hcard, List.toFinset_card_of_nodup hnd, List.length_map]
    · rw [hcount, length_filter_map (fun r : GoString × Nat => r.1),
        length_filter_eq_of_nodup _ hnd]
      split_ifs <;> omega

/-- C10, counterexample. Registering the event `a` twice leaves two delivery loops for
`a`, and two loops for a registry of one entry. -/
theorem On_registry_cex :
    Connect (ascii "abc123") (fun _ => some 1) = Result.ok exampleRuntime
      ∧ ¬ ((registerAll exampleRuntime [(ascii "a", 1), (ascii "a", 2)]).loops.filter
          fun l => l.event = ascii "a").length ≤ 1
      ∧ (registerAll exampleRuntime [(ascii "a", 1), (ascii "a", 2)]).loops.length
        ≠ (registerAll exampleRuntime [(ascii "a", 1), (ascii "a", 2)]).client.handlers.length :=
  ⟨rfl, by decide, by decide⟩

/-- C10 amended, at a concrete input: `a`, `b`, `a` registered in this order. -/
theorem On_registry_witness :
    (registerAll exampleRuntime [(ascii "a", 1), (ascii "b", 2), (ascii "a", 3)]).loops.length = 3
      ∧ (registerAll exampleRuntime
          [(ascii "a", 1), (ascii "b", 2), (ascii "a", 3)]).client.handlers.length
        = ([ascii "a", ascii "b", ascii "a"] : List GoString).toFinset.card :=
  ⟨(On_registry (ascii "abc123") (fun _ => some 1) exampleRuntime
      [(ascii "a", 1), (ascii "b", 2), (ascii "a", 3)] rfl).1,
    (On_registry (ascii "abc123") (fun _ => some 1) exampleRuntime
      [(ascii "a", 1), (ascii "b", 2), (ascii "a", 3)] rfl).2.2.1⟩

/-! ## The liveness monitor -/

/-- Activity recorded since the start of the grace period makes the second check
find the connection active. -/
theorem isActive_of_recent (env : MonitorEnv)
    (h : env.graceStart ≤ env.latestActivity env.check2) :
    isActive env.check2 (env.latestActivity env.check2) = true := by
  unfold MonitorEnv.check2 at h ⊢
  unfold isActive Since Sub maxDuration minDuration checkWait
  unfold pongTimeout Second at *
  simp only [decide_eq_true_eq]
  split_ifs <;> omega

/-- An iteration that finds the connection active: the sleep and nothing else. -/
theorem monitorIteration_active (c : Client) (env : MonitorEnv)
    (h : isActive env.check1 (env.latestActivity env.check1) = true) :
    monitorIteration c env = ([MonitorEvent.sleep checkWait], Result.ok c) := by
  unfold monitorIteration
  simp [h]

/-- An iteration that finds the connection inactive and whose ping is written without
error: one ping, the 30 s wait, and `reconnect` exactly when the second check
finds the connection still inactive. -/
theorem monitorIteration_probe (c : Client) (env : MonitorEnv)
    (h : isActive env.check1 (env.latestActivity env.check1) = false)
    (hp : env.pingErr = false) :
    (isActive env.check2 (env.latestActivity env.check2) = true →
        monitorIteration c env
          = ([MonitorEvent.sleep checkWait,
              MonitorEvent.ping (ping c env.check1 false).1 false,
              MonitorEvent.sleep pongTimeout], Result.ok c))
      ∧ (isActive env.check2 (env.latestActivity env.check2) = false →
        (monitorIteration c env).1.take 4
          = [MonitorEvent.sleep checkWait,
              MonitorEvent.ping (ping c env.check1 false).1 false,
              MonitorEvent.sleep pongTimeout,
              MonitorEvent.reconnect [c.ws]]) := by
  constructor
  · intro h2
    unfold monitorIteration
    simp [h, hp, h2, ping]
  · intro h2
    unfold monitorIteration
    simp only [h, hp, h2, ping]
    simp only [reconnect]
    cases (startWebSocket c.Key env.dial).2 <;> simp

/-- In every iteration, whatever the transport answers: `reconnect` is called only
after the 120 s sleep, a ping written without error and the 30 s wait, and only
when the second check finds the connection inactive. -/
theorem monitorIteration_reconnect (c : Client) (env : MonitorEnv) (closed : List Nat)
    (h : MonitorEvent.reconnect closed ∈ (monitorIteration c env).1) :
    (monitorIteration c env).1.take 4
        = [MonitorEvent.sleep checkWait,
            MonitorEvent.ping (ping c env.check1 false).1 false,
            MonitorEvent.sleep pongTimeout,
            MonitorEvent.reconnect [c.ws]]
      ∧ isActive env.check1 (env.latestActivity env.check1) = false
      ∧ isActive env.check2 (env.latestActivity env.check2) = false
      ∧ env.pingErr = false := by
  cases h1 : isActive env.check1 (env.latestActivity env.check1) with
  | true =>
    rw [monitorIteration_active c env h1] at h
    simp at h
  | false =>
    cases hp : env.pingErr with
    | true =>
      unfold monitorIteration at h
      simp [h1, hp, ping] at h
    | false =>
      cases h2 : isActive env.check2 (env.latestActivity env.check2) with
      | true =>
        rw [(monitorIteration_probe c env h1 hp).1 h2] at h
        simp at h
      | false => exact ⟨(monitorIteration_probe c env h1 hp).2 h2, rfl, rfl, rfl⟩

/-- C6, at the failing input. Nothing has been heard for 120 s at the first check, and
still nothing 30 s later, but the write of the ping fails: the iteration is the
120 s sleep, the failed ping and `log.Fatal`; the monitor does not wait the 30 s
and does not call `reconnect`, the process has ended. -/
theorem monitorIteration_ping_failure :
    isActive staleEnv.check1 (staleEnv.latestActivity staleEnv.check1) = false
      ∧ isActive staleEnv.check2 (staleEnv.latestActivity staleEnv.check2) = false
      ∧ (monitorIteration exampleClient staleEnv).1
          = [MonitorEvent.sleep checkWait,
              MonitorEvent.ping
                { ws := 1, deadline := checkWait + writeTimeout, messageType := PingMessage,
                  payload := [] } true,
              MonitorEvent.fatal]
      ∧ (monitorIteration exampleClient staleEnv).2 = Result.fatal := by
  refine ⟨by decide, by decide, by decide, rfl⟩

/-- C8, at the failing inputs. A read error ends the process in `log.Fatal` before the
`break` and the `Close` of the reader; a ping write error ends the process; a
failed dial in `reconnect` ends the process; and a monitor whose ping fails runs
no further iteration. -/
theorem transport_error_exits :
    (∀ (c : Client) (latest : Int) (rest : List Read),
        reader c latest (Read.error :: rest)
          = { latestActivity := latest, sends := [], closed := false, exited := true })
      ∧ (∀ (c : Client) (now : Int), (ping c now true).2 = Result.fatal)
      ∧ (∀ c : Client, (reconnect c fun _ => none).2 = Result.fatal)
      ∧ (monitor exampleClient [staleEnv, staleEnv]).1.length = 1
      ∧ (monitor exampleClient [staleEnv, staleEnv]).2 = Result.fatal := by
  refine ⟨fun _ _ _ => rfl, fun _ _ => rfl, fun _ => rfl, by decide, rfl⟩

end Pusher
